import Mathlib

/-!
# rlog: a rotating log writer

A shallow embedding of `rlog.go` (package `rlog`) and a verification of its
rotation state machine and file name derivation.

Modelling conventions.

* Go strings are sequences of characters (`List Char`).  The six placeholders
  and every replacement text are ASCII, so replacing on characters and
  replacing on bytes agree on every well-formed (UTF-8) string.
* A `time.Time` is an instant (nanoseconds since January 1 of year 1, 00:00:00
  UTC, as an unbounded integer) together with its location, which gives the
  offset from UTC in force at an instant.  A `time.Duration` is an integer
  number of nanoseconds.  The 64-bit ranges of the Go representations are not
  modelled: they are only left with clock readings hundreds of millions of
  years away from the present.
* The operating system is modelled by a store of regular files (path to
  content), the list of open descriptors, and a trace of the calls made.
  Whether a call to the system fails is not decided by the program: every
  operation takes the outcomes of the calls it makes as an argument.  Only the
  writer changes the store.
* `go f(x)` is modelled by its spawn: the pair of `f` and `x` is recorded in
  the trace.
-/

namespace Rlog

/-! ## Strings and formatting -/

/-- A Go string. -/
abbrev GoString := List Char

/-- The decimal digit for `d` (the table `"0123456789"` of `strconv`). -/
def digitChar : Nat → Char
  | 0 => '0'
  | 1 => '1'
  | 2 => '2'
  | 3 => '3'
  | 4 => '4'
  | 5 => '5'
  | 6 => '6'
  | 7 => '7'
  | 8 => '8'
  | _ => '9'

/-- Decimal digits of `n`, most significant first, with `fuel` bounding the
number of digits produced. -/
def decDigits : Nat → Nat → GoString
  | 0, _ => []
  | fuel + 1, n =>
    if n < 10 then [digitChar n] else decDigits fuel (n / 10) ++ [digitChar (n % 10)]

/-- Decimal representation of a natural number (`strconv.Itoa` on a
non-negative value). -/
def itoa (n : Nat) : GoString := decDigits (n + 1) n

/-- Left padding with zeros up to a minimal length. -/
def padZero (w : Nat) (ds : GoString) : GoString :=
  List.replicate (w - ds.length) '0' ++ ds

/-- Model of `fmt.Sprintf("%0wd", n)`: the decimal digits of the magnitude,
padded with zeros to the width (one less when a sign is printed), after the
sign. -/
def sprintf0d (w : Nat) (n : Int) : GoString :=
  if n < 0 then '-' :: padZero (w - 1) (itoa n.natAbs) else padZero w (itoa n.toNat)

/-- Worker of `Replace`: the first argument counts the characters of a match
that are still to be skipped. -/
def replaceFrom (old new : GoString) : Nat → GoString → GoString
  | _, [] => []
  | skip + 1, _ :: s => replaceFrom old new skip s
  | 0, c :: s =>
    if old.isPrefixOf (c :: s) then new ++ replaceFrom old new (old.length - 1) s
    else c :: replaceFrom old new 0 s

/-- Insertion of `new` after every character. -/
def interleave (new : GoString) : GoString → GoString
  | [] => []
  | c :: s => c :: (new ++ interleave new s)

/-- Model of `strings.Replace(s, old, new, -1)`: every non-overlapping
occurrence of `old`, found from left to right, is replaced by `new`; an empty
`old` matches before every character and at the end. -/
def Replace (s old new : GoString) : GoString :=
  if old = [] then new ++ interleave new s else replaceFrom old new 0 s

/-! ## Time -/

/-- A `time.Duration`: nanoseconds. -/
abbrev Duration := Int

/-- A `time.Time`. -/
structure Time where
  /-- nanoseconds since January 1, year 1, 00:00:00 UTC -/
  ns : Int
  /-- the location: the offset east of UTC, in seconds, in force at an instant
  given in seconds since the zero time -/
  loc : Int → Int

/-- The constant `time.Second`. -/
def Second : Duration := 1000000000

/-- The constant `time.Hour`. -/
def Hour : Duration := 3600 * Second

/-- The location `time.UTC`. -/
def UTC : Int → Int := fun _ => 0

/-- Model of `Time.After`. -/
def Time.After (t u : Time) : Bool := decide (u.ns < t.ns)

/-- Model of `Time.Add`. -/
def Time.Add (t : Time) (d : Duration) : Time := { t with ns := t.ns + d }

/-- Model of `Time.Truncate`: `t` rounded down to a multiple of `d` since the
zero time; unchanged when `d <= 0`. -/
def Time.Truncate (t : Time) (d : Duration) : Time :=
  if d ≤ 0 then t else t.Add (-(t.ns % d))

/-- Seconds since the zero time, shifted by the offset of the location: the
clock reading displayed in the location of `t`. -/
def Time.abs (t : Time) : Int :=
  t.ns / 1000000000 + t.loc (t.ns / 1000000000)

/-- The civil date (year, month, day) of the day that is `days` days after
January 1 of year 1, in the proleptic Gregorian calendar. -/
def civil (days : Int) : Int × Int × Int :=
  let z := days + 306
  let era := z / 146097
  let doe := z % 146097
  let yoe := (doe - doe / 1460 + doe / 36524 - doe / 146096) / 365
  let doy := doe - (365 * yoe + yoe / 4 - yoe / 100)
  let mp := (5 * doy + 2) / 153
  let d := doy - (153 * mp + 2) / 5 + 1
  let m := if mp < 10 then mp + 3 else mp - 9
  let y := yoe + era * 400
  (if m ≤ 2 then y + 1 else y, m, d)

/-- Model of `Time.Year`. -/
def Time.Year (t : Time) : Int := (civil (t.abs / 86400)).1

/-- Model of `Time.Month`. -/
def Time.Month (t : Time) : Int := (civil (t.abs / 86400)).2.1

/-- Model of `Time.Day`. -/
def Time.Day (t : Time) : Int := (civil (t.abs / 86400)).2.2

/-- Model of `Time.Hour`. -/
def Time.Hour (t : Time) : Int := t.abs % 86400 / 3600

/-- Model of `Time.Minute`. -/
def Time.Minute (t : Time) : Int := t.abs % 3600 / 60

/-- Model of `Time.Second`. -/
def Time.Second (t : Time) : Int := t.abs % 60

/-- Number of days from January 1 of year 1 to the given civil date. -/
def daysFromCivil (y m d : Int) : Int :=
  let y1 := if m ≤ 2 then y - 1 else y
  let era := y1 / 400
  let yoe := y1 % 400
  let doy := (153 * (if m > 2 then m - 3 else m + 9) + 2) / 5 + d - 1
  let doe := yoe * 365 + yoe / 4 - yoe / 100 + doy
  era * 146097 + doe - 306

/-- Model of `time.Date(year, month, day, hour, min, sec, 0, time.UTC)` for
arguments in their normal ranges. -/
def Date (year month day hour min sec : Int) : Time :=
  { ns := ((daysFromCivil year month day) * 86400 + hour * 3600 + min * 60 + sec) * 1000000000
    loc := UTC }

/-! ## Errors, files and the operating system -/

/-- What an `*os.PathError` wraps. -/
inductive Cause
  /-- the error `os.ErrClosed` ("file already closed") -/
  | closed
  /-- an error number reported by the system -/
  | errno (n : Nat)
  deriving DecidableEq, Repr

/-- The error values met by the writer. -/
inductive Error
  /-- the package variable `ErrClosedPipe` ("write on closed pipe") -/
  | ErrClosedPipe
  /-- the variable `os.ErrClosed` -/
  | ErrClosed
  /-- the variable `os.ErrInvalid` -/
  | ErrInvalid
  /-- a value `&os.PathError{Op: op, Path: path, Err: err}` -/
  | PathError (op : GoString) (path : GoString) (err : Cause)
  deriving DecidableEq, Repr

/-- The type `RotationFunction`; a function value is known by an identifier. -/
abbrev RotationFunction := Nat

/-- The values of `*os.File` that the field `w` can hold. -/
inductive File
  /-- the nil pointer, as returned by a failed `os.OpenFile` -/
  | nil
  /-- a file opened for appending at `name`, its descriptor open or closed -/
  | file (name : GoString) (isOpen : Bool)
  deriving DecidableEq, Repr

/-- The calls made by the writer, as recorded in the trace. -/
inductive Event
  /-- a call of `now()` and the reading it returned -/
  | now (t : Time)
  /-- the release of the descriptor of `name`, with the error reported -/
  | close (name : GoString) (err : Option Error)
  /-- the statement `go f(arg)` -/
  | spawn (f : RotationFunction) (arg : GoString)
  /-- the call `os.MkdirAll(filepath.Dir(path), 0755)`, with its result -/
  | mkdirAll (path : GoString) (err : Option Error)
  /-- the call `os.OpenFile(name, O_WRONLY|O_CREATE|O_APPEND, 0644)`, with its
  result -/
  | openFile (name : GoString) (err : Option Error)
  /-- a write on the open descriptor of `name` that appended `data` -/
  | write (name : GoString) (data : GoString)

/-- The operating system as the writer sees it. -/
structure World where
  /-- content of the regular file at a path, if there is one -/
  files : GoString → Option GoString
  /-- one entry per open descriptor: the path it was opened at -/
  openFiles : List GoString
  /-- the calls made so far, the latest first -/
  trace : List Event

/-- The trace extended by one call. -/
def World.record (os : World) (e : Event) : World :=
  { os with trace := e :: os.trace }

/-- The store with the content of one path replaced. -/
def setFile (files : GoString → Option GoString) (name : GoString) (content : GoString) :
    GoString → Option GoString :=
  fun p => if p = name then some content else files p

/-- Content of a path, empty when there is no file. -/
def contentOf (files : GoString → Option GoString) (name : GoString) : GoString :=
  (files name).getD []

/-- Model of `os.OpenFile(name, os.O_WRONLY|os.O_CREATE|os.O_APPEND, 0644)`.
On failure the nil file is returned with the error; on success the file is
created empty if it does not exist and is left as it is otherwise. -/
def OpenFile (name : GoString) (outcome : Option Error) (os : World) :
    File × World × Option Error :=
  match outcome with
  | some e => (File.nil, os.record (Event.openFile name (some e)), some e)
  | none =>
    (File.file name true,
     { files := setFile os.files name (contentOf os.files name)
       openFiles := name :: os.openFiles
       trace := Event.openFile name none :: os.trace },
     none)

/-- Model of `(*os.File).Close`.  The nil file gives `os.ErrInvalid`, a file
already closed gives a path error wrapping `os.ErrClosed`; otherwise the
descriptor is released and the error reported by the system, if any, is
returned. -/
def File.Close (f : File) (outcome : Option Error) (os : World) :
    File × World × Option Error :=
  match f with
  | File.nil => (File.nil, os, some Error.ErrInvalid)
  | File.file name false =>
    (File.file name false, os, some (Error.PathError "close".toList name Cause.closed))
  | File.file name true =>
    (File.file name false,
     { files := os.files
       openFiles := os.openFiles.erase name
       trace := Event.close name outcome :: os.trace },
     outcome)

/-- Model of `(*os.File).Write` on a file opened with `O_APPEND`.  The outcome
`none` stands for a complete write; `some (k, e)` for a write that failed with
`e` after `k` bytes. -/
def File.Write (f : File) (p : GoString) (outcome : Option (Nat × Error)) (os : World) :
    World × Nat × Option Error :=
  match f with
  | File.nil => (os, 0, some Error.ErrInvalid)
  | File.file name false =>
    (os, 0, some (Error.PathError "write".toList name Cause.closed))
  | File.file name true =>
    let data := match outcome with
      | none => p
      | some (k, _) => p.take k
    ({ files := setFile os.files name (contentOf os.files name ++ data)
       openFiles := os.openFiles
       trace := Event.write name data :: os.trace },
     data.length,
     outcome.map Prod.snd)

/-! ## The writer -/

/-- The struct `Writer`.  The field `w` is `none` for the nil interface. -/
structure Writer where
  OnRotate : Option RotationFunction
  w : Option File
  closed : Bool
  filePattern : GoString
  thisFile : GoString
  nextRotate : Time
  period : Duration

/-- Outcomes of the calls that `rotate` makes. -/
structure RotateEnv where
  /-- what the system reports when the descriptor of the previous file is released -/
  closeErr : Option Error
  /-- the reading of `now()` -/
  now : Time
  /-- the result of `os.MkdirAll` -/
  mkdirErr : Option Error
  /-- the result of `os.OpenFile` -/
  openErr : Option Error

/-- Outcomes of the calls that `Write` makes. -/
structure WriteEnv where
  /-- the reading of `now()` compared with `nextRotate` -/
  now : Time
  /-- the outcomes for `rotate`, used when it is called -/
  rot : RotateEnv
  /-- the outcome of the write on the file -/
  written : Option (Nat × Error)

/-- A writer, the system, and an error result. -/
structure OpResult where
  w : Writer
  os : World
  err : Option Error

/-- A writer, the system, and the results of `Write`. -/
structure WriteResult where
  w : Writer
  os : World
  n : Nat
  err : Option Error

/-- The method `updateFilename`. -/
def updateFilename (w : Writer) (period : Time) : Writer :=
  let thisFile := w.filePattern
  let thisFile := Replace thisFile "$Y".toList (sprintf0d 4 period.Year)
  let thisFile := Replace thisFile "$M".toList (sprintf0d 2 period.Month)
  let thisFile := Replace thisFile "$D".toList (sprintf0d 2 period.Day)
  let thisFile := Replace thisFile "$h".toList (sprintf0d 2 period.Hour)
  let thisFile := Replace thisFile "$m".toList (sprintf0d 2 period.Minute)
  let thisFile := Replace thisFile "$s".toList (sprintf0d 2 period.Second)
  { w with thisFile := thisFile }

/-- The second half of `rotate`: the period of the reading of the clock, the
new name, the directory, the file and the next boundary. -/
def rotateOpen (env : RotateEnv) (w : Writer) (os : World) : OpResult :=
  let os := os.record (Event.now env.now)
  let thisPeriod := env.now.Truncate w.period
  let w := updateFilename w thisPeriod
  let os := os.record (Event.mkdirAll w.thisFile env.mkdirErr)
  let (f, os, err) := OpenFile w.thisFile env.openErr os
  { w := { w with w := some f, nextRotate := thisPeriod.Add w.period }, os := os, err := err }

/-- The method `rotate`. -/
def rotate (env : RotateEnv) (w : Writer) (os : World) : OpResult :=
  let prevFile := w.thisFile
  match w.w with
  | some f =>
    let (f, os, cerr) := f.Close env.closeErr os
    let w := { w with w := some f }
    match cerr with
    | some e => { w := w, os := os, err := some e }
    | none =>
      match w.OnRotate with
      | some g => rotateOpen env w (os.record (Event.spawn g prevFile))
      | none => rotateOpen env w os
  | none => rotateOpen env w os

/-- The function `NewWriter`; the writer is returned together with the result
of its first rotation. -/
def NewWriter (env : RotateEnv) (filePattern : GoString) (period : Duration)
    (onRotate : Option RotationFunction) (os : World) : OpResult :=
  rotate env
    { OnRotate := onRotate, w := none, closed := false, filePattern := filePattern,
      thisFile := [], nextRotate := { ns := 0, loc := UTC }, period := period } os

/-- The method `Write`; `none` is the panic of a method call on the nil
interface. -/
def Write (env : WriteEnv) (p : GoString) (w : Writer) (os : World) : Option WriteResult :=
  if w.closed then
    some { w := w, os := os, n := 0, err := some Error.ErrClosed }
  else
    let os := os.record (Event.now env.now)
    let r : OpResult :=
      if env.now.After w.nextRotate then rotate env.rot w os else { w := w, os := os, err := none }
    match r.err with
    | some e => some { w := r.w, os := r.os, n := 0, err := some e }
    | none =>
      match r.w.w with
      | none => none
      | some f =>
        let (os, n, err) := f.Write p env.written r.os
        some { w := r.w, os := os, n := n, err := err }

/-- The method `Close`; `none` is the panic of a method call on the nil
interface. -/
def Close (closeErr : Option Error) (w : Writer) (os : World) : Option OpResult :=
  let w := { w with closed := true }
  match w.w with
  | none => none
  | some f =>
    let (f, os, err) := f.Close closeErr os
    some { w := { w with w := some f }, os := os, err := err }

/-! ## The template language as the specification describes it -/

/-- The replacement for a token that starts at the character `c` followed by
`s`: `c` is a dollar sign and the next character is one that `tok` knows. -/
def tokenAt (tok : Char → Option GoString) (c : Char) (s : GoString) : Option GoString :=
  if c = '$' then s.head?.bind tok else none

/-- Worker of `expandTokens`: the first argument is 1 when the second character
of a token is still to be skipped. -/
def expandFrom (tok : Char → Option GoString) : Nat → GoString → GoString
  | _, [] => []
  | _ + 1, _ :: s => expandFrom tok 0 s
  | 0, c :: s =>
    match tokenAt tok c s with
    | some r => r ++ expandFrom tok 1 s
    | none => c :: expandFrom tok 0 s

/-- A single pass over a template from left to right: a dollar sign followed by
a character that `tok` knows is a token, replaced by the text `tok` gives, and
every other character is copied. -/
def expandTokens (tok : Char → Option GoString) (s : GoString) : GoString :=
  expandFrom tok 0 s

/-- The six placeholders and the fields of a period that replace them. -/
def fieldOf (period : Time) : Char → Option GoString
  | 'Y' => some (sprintf0d 4 period.Year)
  | 'M' => some (sprintf0d 2 period.Month)
  | 'D' => some (sprintf0d 2 period.Day)
  | 'h' => some (sprintf0d 2 period.Hour)
  | 'm' => some (sprintf0d 2 period.Minute)
  | 's' => some (sprintf0d 2 period.Second)
  | _ => none

/-- The characters that a formatted integer is made of. -/
def numChars : List Char := "-0123456789".toList

/-- A text is numeric when it is not empty and made of a sign and digits. -/
def NumText (r : GoString) : Prop := r ≠ [] ∧ ∀ c ∈ r, c ∈ numChars

/-- A token map extended by one token. -/
def addToken (tok : Char → Option GoString) (k : Char) (r : GoString) : Char → Option GoString :=
  fun c => if c = k then some r else tok c

/-- Every text of a token map is numeric. -/
def NumTokens (tok : Char → Option GoString) : Prop := ∀ d r, tok d = some r → NumText r

/-! ## Observations on the trace, runs and test data -/

/-- The goroutines started, the latest first: the function and its argument. -/
def spawns : List Event → List (RotationFunction × GoString)
  | [] => []
  | Event.spawn f arg :: es => (f, arg) :: spawns es
  | _ :: es => spawns es

/-- The reading of the clock taken by the latest rotation that went on to
create the directory and open a file. -/
def lastRotationClock : List Event → Option Time
  | [] => none
  | Event.mkdirAll _ _ :: Event.now t :: _ => some t
  | _ :: es => lastRotationClock es

/-- A call on the writer, with the outcomes of the calls it makes. -/
inductive Op
  | write (env : WriteEnv) (p : GoString)
  | close (closeErr : Option Error)

/-- One call; `none` is a panic. -/
def step (op : Op) (w : Writer) (os : World) : Option (Writer × World) :=
  match op with
  | Op.write env p => (Write env p w os).map (fun r => (r.w, r.os))
  | Op.close closeErr => (Close closeErr w os).map (fun r => (r.w, r.os))

/-- A sequence of calls, the first of the list first. -/
def run : List Op → Writer → World → Option (Writer × World)
  | [], w, os => some (w, os)
  | op :: ops, w, os =>
    match step op w os with
    | none => none
    | some (w1, os1) => run ops w1 os1

/-- A system without files, descriptors or history. -/
def emptyWorld : World := { files := fun _ => none, openFiles := [], trace := [] }

/-- Outcomes for a rotation at the reading `t` in which every call succeeds. -/
def okRotate (t : Time) : RotateEnv :=
  { closeErr := none, now := t, mkdirErr := none, openErr := none }

/-- Outcomes for a `Write` while the clock stands at `t` in which every call
succeeds. -/
def okWrite (t : Time) : WriteEnv := { now := t, rot := okRotate t, written := none }

/-! ## Auxiliary definitions for the statements -/

/-- The name that a rotation of `w` at the reading `t` gives to its file. -/
def periodName (w : Writer) (t : Time) : GoString :=
  (updateFilename w (t.Truncate w.period)).thisFile

/-- The events of the release of the previous file and of the start of the
callback, the latest first. -/
def closeEvents (w : Writer) (prev : GoString) : List Event :=
  match w.OnRotate with
  | some g => [Event.spawn g w.thisFile, Event.close prev none]
  | none => [Event.close prev none]

/-- The pattern of `TestRotate`, in a fixed directory. -/
def testPattern : GoString := "/tmp/TestRotate-1/$Y-$M-$D.txt".toList

/-- The clock of `TestRotate` at its start. -/
def testTime : Time := Date 2017 2 3 1 0 0

/-- The first file of `TestRotate`. -/
def expectedFile1 : GoString := "/tmp/TestRotate-1/2017-02-03.txt".toList

/-- The second file of `TestRotate`. -/
def expectedFile2 : GoString := "/tmp/TestRotate-1/2017-02-04.txt".toList

/-- The writer of `TestRotate` after its construction in an empty system. -/
def day1 : OpResult := NewWriter (okRotate testTime) testPattern (24 * Hour) (some 7) emptyWorld

/-- A writer with the pattern of `TestRotate` and a period of one hour. -/
def hourly : OpResult := NewWriter (okRotate testTime) testPattern Hour (some 7) emptyWorld

/-- The invariant of the writer: the pattern and the period are those of the
construction, there is a file value in `w`, and the name and the boundary are
those of the period of the latest rotation recorded in the trace. -/
def Inv (pattern : GoString) (period : Duration) (w : Writer) (tr : List Event) : Prop :=
  w.filePattern = pattern ∧ w.period = period ∧ (∃ f, w.w = some f)
    ∧ ∃ t, lastRotationClock tr = some t
      ∧ w.thisFile = expandTokens (fieldOf (t.Truncate period)) pattern
      ∧ w.nextRotate = (t.Truncate period).Add period

/-- The system after the first two days of `TestRotate`, every file closed. -/
def secondDayWorld : World :=
  { files := setFile (setFile (fun _ => none) expectedFile1
        "First Day, First Line\nFirst Day, Second Line\n".toList) expectedFile2
        "Second Day, First Line\nSecond Day, Second Line\n".toList
    openFiles := []
    trace := [] }

/-! ## Definitions for failures, descriptors and field widths -/

/-- The writes recorded, the latest first: the path and the bytes appended. -/
def writes : List Event → List (GoString × GoString)
  | [] => []
  | Event.write name data :: es => (name, data) :: writes es
  | _ :: es => writes es

/-- The directories and files the writer asked for, the latest first: the
calls of `os.MkdirAll` and `os.OpenFile`, by the path of the file. -/
def creations : List Event → List GoString
  | [] => []
  | Event.mkdirAll path _ :: es => path :: creations es
  | Event.openFile name _ :: es => name :: creations es
  | _ :: es => creations es

/-- The error of a failed `os.MkdirAll`: permission denied on the directory of
`TestRotate`. -/
def mkdirDenied : Error := Error.PathError "mkdir".toList "/tmp/TestRotate-1".toList (Cause.errno 13)

/-- Outcomes for a rotation at the reading `t` in which `os.MkdirAll` fails and
every other call succeeds. -/
def mkdirFails (t : Time) : RotateEnv :=
  { closeErr := none, now := t, mkdirErr := some mkdirDenied, openErr := none }

/-- Outcomes for a `Write` at the reading `t` whose rotation meets a failing
`os.MkdirAll`, every other call succeeding. -/
def mkdirFailsWrite (t : Time) : WriteEnv := { now := t, rot := mkdirFails t, written := none }

/-- The error of a failed release of a descriptor: an input/output error on
the first file of `TestRotate`. -/
def closeIO : Error := Error.PathError "close".toList expectedFile1 (Cause.errno 5)

/-- The error of a failed `os.OpenFile`: permission denied on the second file
of `TestRotate`. -/
def openDenied : Error := Error.PathError "open".toList expectedFile2 (Cause.errno 13)

/-- Outcomes for a `Write` at the reading `t` in which the release of the
previous file fails. -/
def closeFailsWrite (t : Time) : WriteEnv :=
  { now := t
    rot := { closeErr := some closeIO, now := t, mkdirErr := none, openErr := none }
    written := none }

/-- Outcomes for a `Write` at the reading `t` in which the new file cannot be
opened. -/
def openFailsWrite (t : Time) : WriteEnv :=
  { now := t
    rot := { closeErr := none, now := t, mkdirErr := none, openErr := some openDenied }
    written := none }

/-- The letters of the six placeholders. -/
def tokenLetters : List Char := "YMDhms".toList

/-- The decimal digits. -/
def decChars : List Char := "0123456789".toList

/-- The expansion of a pattern at a period, as `updateFilename` computes it. -/
def expand (tpl : GoString) (period : Time) : GoString :=
  (updateFilename
    { OnRotate := none, w := none, closed := false, filePattern := tpl, thisFile := [],
      nextRotate := { ns := 0, loc := UTC }, period := 0 } period).thisFile

/-- The file value after `Close` has been called on it. -/
def File.closed : File → File
  | File.nil => File.nil
  | File.file name _ => File.file name false

/-- The descriptor that the writer holds open, if any, by the path it was
opened at. -/
def ownOpen (w : Writer) : List GoString :=
  match w.w with
  | some (File.file name true) => [name]
  | _ => []

/-- The writer holds a file value, and the open descriptors of the system are
the one the writer holds open, if any, before those in `base`. -/
def Own (base : List GoString) (w : Writer) (os : World) : Prop :=
  (∃ f, w.w = some f) ∧ os.openFiles = ownOpen w ++ base

/-- The number of rotations that went on to create the directory and open a
file: the calls of `os.MkdirAll` in the trace. -/
def rotations : List Event → Nat
  | [] => 0
  | Event.mkdirAll _ _ :: es => rotations es + 1
  | _ :: es => rotations es

/-- The calls of `Write` with the given outcomes and bytes. -/
def writeOps (ws : List (WriteEnv × GoString)) : List Op :=
  ws.map (fun x => Op.write x.1 x.2)

/-- Outcomes for a `Write` on the second day of `TestRotate` during which the
clock is set back: `Write` reads 2017-02-04 00:00:01, `rotate` reads 2017-02-03
23:59:59, and every call succeeds. -/
def steppedBack : WriteEnv :=
  { now := Date 2017 2 4 0 0 1, rot := okRotate (Date 2017 2 3 23 59 59), written := none }

/-- The value of a decimal digit. -/
def digitVal (c : Char) : Nat := c.toNat - 48

/-- The six formatted fields of a period, one after the other. -/
def stamp (t : Time) : GoString :=
  sprintf0d 4 t.Year ++ sprintf0d 2 t.Month ++ sprintf0d 2 t.Day
    ++ sprintf0d 2 t.Hour ++ sprintf0d 2 t.Minute ++ sprintf0d 2 t.Second

/-- The pattern made of the six placeholders. -/
def stampPattern : GoString := "$Y$M$D$h$m$s".toList

/-- The third file of the pattern of `TestRotate`. -/
def expectedFile3 : GoString := "/tmp/TestRotate-1/2017-02-05.txt".toList

/-- The writer of the last part of `TestRotate`: constructed on the second day
in the system that holds the files of the first two days. -/
def reopened : OpResult :=
  NewWriter (okRotate (testTime.Add (24 * Hour))) testPattern (24 * Hour) (some 7) secondDayWorld

/-- Half a second. -/
def halfSecond : Duration := 500000000

/-- A pattern with the six placeholders after a fixed text. -/
def stampedPattern : GoString := "/tmp/log-".toList ++ stampPattern

/-- The file that `stampedPattern` names during the second 2017-02-03 01:00:00. -/
def stampedFile : GoString := "/tmp/log-20170203010000".toList

/-- A writer with the six placeholders and a period of half a second,
constructed at 2017-02-03 01:00:00. -/
def halfSecondWriter : OpResult :=
  NewWriter (okRotate testTime) stampedPattern halfSecond none emptyWorld

/-! ## Formatting and replacement -/

theorem digitChar_mem (d : Nat) : digitChar d ∈ numChars := by
  unfold digitChar
  split <;> decide

theorem decDigits_mem (fuel n : Nat) : ∀ c ∈ decDigits fuel n, c ∈ numChars := by
  induction fuel generalizing n with
  | zero => intro c hc; simp [decDigits] at hc
  | succ k ih =>
    intro c hc
    unfold decDigits at hc
    split at hc
    · simp at hc; subst hc; exact digitChar_mem n
    · rcases List.mem_append.1 hc with h | h
      · exact ih _ c h
      · simp at h; subst h; exact digitChar_mem _

theorem decDigits_ne_nil (fuel n : Nat) : decDigits (fuel + 1) n ≠ [] := by
  unfold decDigits
  split <;> simp

theorem sprintf0d_num (w : Nat) (n : Int) : NumText (sprintf0d w n) := by
  unfold sprintf0d padZero itoa
  split
  · refine ⟨by simp, ?_⟩
    intro c hc
    simp only [List.mem_cons, List.mem_append, List.mem_replicate] at hc
    rcases hc with h | h | h
    · subst h; decide
    · rw [h.2]; decide
    · exact decDigits_mem _ _ c h
  · refine ⟨?_, ?_⟩
    · intro h
      exact decDigits_ne_nil _ _ (List.append_eq_nil.1 h).2
    · intro c hc
      simp only [List.mem_append, List.mem_replicate] at hc
      rcases hc with h | h
      · rw [h.2]; decide
      · exact decDigits_mem _ _ c h

theorem replaceFrom_token (k : Char) (r t : GoString) :
    replaceFrom ['$', k] r 0 ('$' :: k :: t) = r ++ replaceFrom ['$', k] r 0 t := by
  simp [replaceFrom, List.isPrefixOf]

theorem replaceFrom_other (k c : Char) (r t : GoString) (h : c ≠ '$') :
    replaceFrom ['$', k] r 0 (c :: t) = c :: replaceFrom ['$', k] r 0 t := by
  have h' : ¬ '$' = c := fun e => h e.symm
  simp [replaceFrom, List.isPrefixOf, h']

theorem replaceFrom_dollar (k : Char) (r t : GoString) (h : t.head? ≠ some k) :
    replaceFrom ['$', k] r 0 ('$' :: t) = '$' :: replaceFrom ['$', k] r 0 t := by
  cases t with
  | nil => simp [replaceFrom, List.isPrefixOf]
  | cons d t =>
    have hd : ¬ k = d := fun e => h (by simp [e])
    rw [replaceFrom]
    simp [List.isPrefixOf, hd]

theorem replaceFrom_append (k : Char) (r a t : GoString) (h : ∀ c ∈ a, c ≠ '$') :
    replaceFrom ['$', k] r 0 (a ++ t) = a ++ replaceFrom ['$', k] r 0 t := by
  induction a with
  | nil => rfl
  | cons c a ih =>
    rw [List.cons_append, replaceFrom_other k c r _ (h c (List.mem_cons_self _ _)),
      ih (fun x hx => h x (List.mem_cons_of_mem _ hx)), List.cons_append]

theorem expandFrom_single (tok : Char → Option GoString) (c : Char) :
    expandFrom tok 0 [c] = [c] := by
  simp [expandFrom, tokenAt]

theorem expandFrom_token (tok : Char → Option GoString) (d : Char) (r rest : GoString)
    (h : tok d = some r) :
    expandFrom tok 0 ('$' :: d :: rest) = r ++ expandFrom tok 0 rest := by
  simp [expandFrom, tokenAt, h]

theorem expandFrom_copy (tok : Char → Option GoString) (c : Char) (s : GoString)
    (h : tokenAt tok c s = none) :
    expandFrom tok 0 (c :: s) = c :: expandFrom tok 0 s := by
  simp [expandFrom, h]

theorem numChars_ne_dollar (c : Char) (h : c ∈ numChars) : c ≠ '$' := by
  rintro rfl
  revert h
  decide

theorem tokenAt_some (tok : Char → Option GoString) (c : Char) (s r : GoString)
    (h : tokenAt tok c s = some r) : ∃ d rest, c = '$' ∧ s = d :: rest ∧ tok d = some r := by
  unfold tokenAt at h
  split at h
  · cases s with
    | nil => simp at h
    | cons d rest => exact ⟨d, rest, by assumption, rfl, by simpa using h⟩
  · simp at h

theorem tokenAt_of_ne (tok : Char → Option GoString) (c : Char) (s : GoString) (h : c ≠ '$') :
    tokenAt tok c s = none := by
  simp [tokenAt, h]

theorem tokenAt_dollar (tok : Char → Option GoString) (d : Char) (rest : GoString) :
    tokenAt tok '$' (d :: rest) = tok d := by
  simp [tokenAt]

theorem expandFrom_head (tok : Char → Option GoString) (k : Char) (hkn : k ∉ numChars)
    (htok : NumTokens tok) (t : GoString) (ht : t.head? ≠ some k) :
    (expandFrom tok 0 t).head? ≠ some k := by
  cases t with
  | nil => simp [expandFrom]
  | cons c s =>
    cases hta : tokenAt tok c s with
    | none =>
      rw [expandFrom_copy tok c s hta]
      simpa using ht
    | some r =>
      obtain ⟨d, rest, -, -, hd⟩ := tokenAt_some tok c s r hta
      have hr := htok d r hd
      rw [expandFrom, hta]
      cases r with
      | nil => exact absurd rfl hr.1
      | cons x r =>
        intro h
        have hx : x = k := by simpa using h
        exact hkn (hx ▸ hr.2 x (List.mem_cons_self _ _))

theorem replace_expand_aux (tok : Char → Option GoString) (k : Char) (r : GoString)
    (hk : k ≠ '$') (hkn : k ∉ numChars) (hnone : tok k = none) (htok : NumTokens tok) :
    ∀ (n : Nat) (s : GoString), s.length ≤ n →
      replaceFrom ['$', k] r 0 (expandFrom tok 0 s) = expandFrom (addToken tok k r) 0 s := by
  intro n
  induction n with
  | zero =>
    intro s hs
    have : s = [] := List.length_eq_zero.1 (Nat.le_zero.1 hs)
    subst this
    rfl
  | succ n ih =>
    intro s hs
    cases s with
    | nil => rfl
    | cons c s =>
      have hlen : s.length ≤ n := by simpa using hs
      by_cases hc : c = '$'
      · subst hc
        cases s with
        | nil => rw [expandFrom_single, expandFrom_single]; simp [replaceFrom, List.isPrefixOf]
        | cons d rest =>
          have hrest : rest.length ≤ n := by
            simp only [List.length_cons] at hlen
            omega
          cases htd : tok d with
          | some rd =>
            have hdk : d ≠ k := by
              rintro rfl
              rw [hnone] at htd
              cases htd
            have hadd : addToken tok k r d = some rd := by simp [addToken, hdk, htd]
            rw [expandFrom_token tok d rd rest htd, expandFrom_token _ d rd rest hadd,
              replaceFrom_append k r rd _ (fun x hx => numChars_ne_dollar x ((htok d rd htd).2 x hx)),
              ih rest hrest]
          | none =>
            by_cases hdk : d = k
            · subst hdk
              have hadd : addToken tok d r d = some r := by simp [addToken]
              rw [expandFrom_copy tok '$' (d :: rest) (by rw [tokenAt_dollar]; exact htd),
                expandFrom_copy tok d rest (tokenAt_of_ne tok d rest hk),
                replaceFrom_token, ih rest hrest, expandFrom_token _ d r rest hadd]
            · have hadd : addToken tok k r d = none := by simp [addToken, hdk, htd]
              rw [expandFrom_copy tok '$' (d :: rest) (by rw [tokenAt_dollar]; exact htd),
                expandFrom_copy _ '$' (d :: rest) (by rw [tokenAt_dollar]; exact hadd),
                replaceFrom_dollar k r _
                  (expandFrom_head tok k hkn htok (d :: rest) (by simpa using hdk)),
                ih (d :: rest) hlen]
      · rw [expandFrom_copy tok c s (tokenAt_of_ne tok c s hc),
          expandFrom_copy _ c s (tokenAt_of_ne _ c s hc), replaceFrom_other k c r _ hc, ih s hlen]

/-- One pass of `Replace` for a new token, after a single pass for the tokens
of `tok`, is the single pass for all of them. -/
theorem Replace_expandTokens (tok : Char → Option GoString) (k : Char) (r : GoString)
    (hk : k ≠ '$') (hkn : k ∉ numChars) (hnone : tok k = none) (htok : NumTokens tok)
    (s : GoString) :
    Replace (expandTokens tok s) ['$', k] r = expandTokens (addToken tok k r) s := by
  unfold Replace expandTokens
  rw [if_neg (by simp)]
  exact replace_expand_aux tok k r hk hkn hnone htok s.length s (le_refl _)

theorem addToken_num (tok : Char → Option GoString) (k : Char) (r : GoString)
    (htok : NumTokens tok) (hr : NumText r) : NumTokens (addToken tok k r) := by
  intro d x hx
  unfold addToken at hx
  split at hx
  · cases hx; exact hr
  · exact htok d x hx

theorem expandTokens_none (s : GoString) : expandTokens (fun _ => none) s = s := by
  unfold expandTokens
  induction s with
  | nil => rfl
  | cons c s ih =>
    rw [expandFrom_copy _ c s (by cases s <;> simp [tokenAt]), ih]

theorem fieldOf_eq (period : Time) :
    fieldOf period =
      addToken (addToken (addToken (addToken (addToken (addToken (fun _ => none)
        'Y' (sprintf0d 4 period.Year)) 'M' (sprintf0d 2 period.Month))
        'D' (sprintf0d 2 period.Day)) 'h' (sprintf0d 2 period.Hour))
        'm' (sprintf0d 2 period.Minute)) 's' (sprintf0d 2 period.Second) := by
  funext c
  unfold fieldOf
  split
  all_goals first
    | simp [addToken]; done
    | (rename_i h1 h2 h3 h4 h5 h6
       simp only [addToken]
       rw [if_neg (fun e => h6 e), if_neg (fun e => h5 e), if_neg (fun e => h4 e),
         if_neg (fun e => h3 e), if_neg (fun e => h2 e), if_neg (fun e => h1 e)])

/-- The six passes of `updateFilename` are one pass over the pattern that
replaces the six tokens by the fields of the period. -/
theorem updateFilename_thisFile (w : Writer) (period : Time) :
    (updateFilename w period).thisFile = expandTokens (fieldOf period) w.filePattern := by
  have h0 : NumTokens (fun _ => none) := by intro d r h; cases h
  have h1 := addToken_num _ 'Y' _ h0 (sprintf0d_num 4 period.Year)
  have h2 := addToken_num _ 'M' _ h1 (sprintf0d_num 2 period.Month)
  have h3 := addToken_num _ 'D' _ h2 (sprintf0d_num 2 period.Day)
  have h4 := addToken_num _ 'h' _ h3 (sprintf0d_num 2 period.Hour)
  have h5 := addToken_num _ 'm' _ h4 (sprintf0d_num 2 period.Minute)
  rw [fieldOf_eq]
  rw [← Replace_expandTokens _ 's' _ (by decide) (by decide) (by simp [addToken]) h5,
    ← Replace_expandTokens _ 'm' _ (by decide) (by decide) (by simp [addToken]) h4,
    ← Replace_expandTokens _ 'h' _ (by decide) (by decide) (by simp [addToken]) h3,
    ← Replace_expandTokens _ 'D' _ (by decide) (by decide) (by simp [addToken]) h2,
    ← Replace_expandTokens _ 'M' _ (by decide) (by decide) (by simp [addToken]) h1,
    ← Replace_expandTokens _ 'Y' _ (by decide) (by decide) rfl h0,
    expandTokens_none]
  rfl

/-! ## Properties of the writer -/

/-- Claim C1.  For every pattern and every period start, `updateFilename` sets
`thisFile` to the pattern in which every occurrence of `$Y`, `$M`, `$D`, `$h`,
`$m`, `$s` is replaced by the year formatted with `%04d` and the month, day,
hour, minute and second formatted with `%02d`, and changes no other field.  The
pattern `$Y$M$D$h$m$s` gives the six formatted fields one after the other, and
`Year$YMonth$MDay$D.txt` at 2017-02-03 01:00:00 gives
`Year2017Month02Day03.txt`. -/
theorem updateFilename_expands (w : Writer) (period : Time) :
    updateFilename w period
        = { w with thisFile := expandTokens (fieldOf period) w.filePattern }
      ∧ (updateFilename { w with filePattern := "$Y$M$D$h$m$s".toList } period).thisFile
        = sprintf0d 4 period.Year ++ sprintf0d 2 period.Month ++ sprintf0d 2 period.Day
          ++ sprintf0d 2 period.Hour ++ sprintf0d 2 period.Minute ++ sprintf0d 2 period.Second
      ∧ (updateFilename { w with filePattern := "Year$YMonth$MDay$D.txt".toList }
          (Date 2017 2 3 1 0 0)).thisFile = "Year2017Month02Day03.txt".toList := by
  refine ⟨?_, ?_, ?_⟩
  · have h := updateFilename_thisFile w period
    unfold updateFilename at h ⊢
    simp only at h ⊢
    rw [h]
  · rw [updateFilename_thisFile]
    simp [expandTokens, expandFrom, tokenAt, fieldOf]
  · rw [updateFilename_thisFile]
    show expandTokens (fieldOf (Date 2017 2 3 1 0 0)) "Year$YMonth$MDay$D.txt".toList = _
    decide

theorem periodName_eq (w : Writer) (t : Time) :
    periodName w t = expandTokens (fieldOf (t.Truncate w.period)) w.filePattern :=
  updateFilename_thisFile w _

theorem rotateOpen_ok (env : RotateEnv) (w : Writer) (os : World) (hopen : env.openErr = none) :
    rotateOpen env w os =
      { w := { w with
                 thisFile := periodName w env.now
                 w := some (File.file (periodName w env.now) true)
                 nextRotate := (env.now.Truncate w.period).Add w.period }
        os := { files := setFile os.files (periodName w env.now)
                  (contentOf os.files (periodName w env.now))
                openFiles := periodName w env.now :: os.openFiles
                trace := Event.openFile (periodName w env.now) none
                  :: Event.mkdirAll (periodName w env.now) env.mkdirErr
                  :: Event.now env.now :: os.trace }
        err := none } := by
  simp [rotateOpen, OpenFile, hopen, World.record, updateFilename, periodName]

theorem rotateOpen_fail (env : RotateEnv) (w : Writer) (os : World) (e : Error)
    (hopen : env.openErr = some e) :
    rotateOpen env w os =
      { w := { w with
                 thisFile := periodName w env.now
                 w := some File.nil
                 nextRotate := (env.now.Truncate w.period).Add w.period }
        os := { files := os.files
                openFiles := os.openFiles
                trace := Event.openFile (periodName w env.now) (some e)
                  :: Event.mkdirAll (periodName w env.now) env.mkdirErr
                  :: Event.now env.now :: os.trace }
        err := some e } := by
  simp [rotateOpen, OpenFile, hopen, World.record, updateFilename, periodName]

theorem rotate_open_handle (env : RotateEnv) (w : Writer) (os : World) (prev : GoString)
    (hw : w.w = some (File.file prev true)) (hclose : env.closeErr = none) :
    rotate env w os =
      rotateOpen env { w with w := some (File.file prev false) }
        { files := os.files
          openFiles := os.openFiles.erase prev
          trace := closeEvents w prev ++ os.trace } := by
  unfold rotate closeEvents
  rw [hw]
  simp only [File.Close, hclose]
  cases w.OnRotate <;> simp [World.record]

theorem rotate_ok (env : RotateEnv) (w : Writer) (os : World) (prev : GoString)
    (hw : w.w = some (File.file prev true)) (hclose : env.closeErr = none)
    (hopen : env.openErr = none) :
    rotate env w os =
      { w := { w with
                 thisFile := periodName w env.now
                 w := some (File.file (periodName w env.now) true)
                 nextRotate := (env.now.Truncate w.period).Add w.period }
        os := { files := setFile os.files (periodName w env.now)
                  (contentOf os.files (periodName w env.now))
                openFiles := periodName w env.now :: os.openFiles.erase prev
                trace := Event.openFile (periodName w env.now) none
                  :: Event.mkdirAll (periodName w env.now) env.mkdirErr
                  :: Event.now env.now :: (closeEvents w prev ++ os.trace) }
        err := none } := by
  rw [rotate_open_handle env w os prev hw hclose, rotateOpen_ok _ _ _ hopen]
  rfl

theorem setFile_same (files : GoString → Option GoString) (name c : GoString) :
    setFile files name c name = some c := by
  simp [setFile]

theorem setFile_other (files : GoString → Option GoString) (name c q : GoString) (h : q ≠ name) :
    setFile files name c q = files q := by
  simp [setFile, h]

theorem setFile_setFile (files : GoString → Option GoString) (name a b : GoString) :
    setFile (setFile files name a) name b = setFile files name b := by
  funext q
  by_cases hq : q = name <;> simp [setFile, hq]

theorem contentOf_setFile (files : GoString → Option GoString) (name c : GoString) :
    contentOf (setFile files name c) name = c := by
  simp [contentOf, setFile]

/-- The result of a `Write` that rotates from an open file, every call
succeeding. -/
theorem Write_rotate_ok (env : WriteEnv) (p : GoString) (w : Writer) (os : World)
    (prev : GoString) (hclosed : w.closed = false)
    (hafter : env.now.After w.nextRotate = true)
    (hw : w.w = some (File.file prev true))
    (hclose : env.rot.closeErr = none) (hopen : env.rot.openErr = none)
    (hwritten : env.written = none) :
    Write env p w os = some
      { w := { w with
                 thisFile := periodName w env.rot.now
                 w := some (File.file (periodName w env.rot.now) true)
                 nextRotate := (env.rot.now.Truncate w.period).Add w.period }
        os := { files := setFile os.files (periodName w env.rot.now)
                  (contentOf os.files (periodName w env.rot.now) ++ p)
                openFiles := periodName w env.rot.now :: os.openFiles.erase prev
                trace := Event.write (periodName w env.rot.now) p
                  :: Event.openFile (periodName w env.rot.now) none
                  :: Event.mkdirAll (periodName w env.rot.now) env.rot.mkdirErr
                  :: Event.now env.rot.now
                  :: (closeEvents w prev ++ Event.now env.now :: os.trace) }
        n := p.length
        err := none } := by
  unfold Write
  simp only [hclosed, hafter, Bool.false_eq_true, if_false, if_true,
    rotate_ok env.rot w (os.record (Event.now env.now)) prev hw hclose hopen,
    File.Write, hwritten, contentOf_setFile, Option.map]
  simp only [World.record, setFile_setFile]

/-- Claim C2, amended.  For a writer that is not closed and holds an open file,
a `Write` issued when the clock is strictly after `nextRotate`, in which the
release of the old file, the opening of the new one and the write succeed,
returns the length of its argument and no error, names the new file by the
pattern expanded at the reading of the clock taken by the rotation truncated to
the period, appends its bytes to that file, and leaves the content of every
other path as it was: nothing is appended to the previous file when its name
differs from the new one. -/
theorem Write_after_boundary (env : WriteEnv) (p : GoString) (w : Writer) (os : World)
    (prev : GoString) (hclosed : w.closed = false)
    (hafter : env.now.After w.nextRotate = true)
    (hw : w.w = some (File.file prev true))
    (hclose : env.rot.closeErr = none) (hopen : env.rot.openErr = none)
    (hwritten : env.written = none) :
    ∃ r, Write env p w os = some r ∧ r.n = p.length ∧ r.err = none
      ∧ r.w.thisFile = expandTokens (fieldOf (env.rot.now.Truncate w.period)) w.filePattern
      ∧ r.w.w = some (File.file r.w.thisFile true)
      ∧ r.os.files r.w.thisFile = some (contentOf os.files r.w.thisFile ++ p)
      ∧ ∀ q, q ≠ r.w.thisFile → r.os.files q = os.files q := by
  refine ⟨_, Write_rotate_ok env p w os prev hclosed hafter hw hclose hopen hwritten,
    rfl, rfl, periodName_eq _ _, rfl, setFile_same _ _ _, ?_⟩
  intro q hq
  exact setFile_other _ _ _ _ hq

/-- The second day of `TestRotate`: constructed at 2017-02-03 01:00:00 UTC with
a period of 24 hours the writer is on `2017-02-03.txt`; one day later the write
lands in `2017-02-04.txt` and the first file keeps its content. -/
theorem Write_after_boundary_witness :
    ∃ r, Write (okWrite (testTime.Add (24 * Hour))) "Second Day, First Line\n".toList
          day1.w day1.os = some r
      ∧ day1.w.thisFile = expectedFile1
      ∧ r.w.thisFile = expectedFile2
      ∧ r.os.files expectedFile2 = some "Second Day, First Line\n".toList
      ∧ r.os.files expectedFile1 = day1.os.files expectedFile1 := by
  obtain ⟨r, h1, -, -, h2, -, h3, h4⟩ :=
    Write_after_boundary (okWrite (testTime.Add (24 * Hour))) "Second Day, First Line\n".toList
      day1.w day1.os expectedFile1 (by decide) (by decide) (by decide) rfl rfl rfl
  have e : expandTokens (fieldOf ((okWrite (testTime.Add (24 * Hour))).rot.now.Truncate
      day1.w.period)) day1.w.filePattern = expectedFile2 := by decide
  rw [e] at h2
  rw [h2] at h3 h4
  refine ⟨r, h1, by decide, h2, ?_, h4 expectedFile1 (by decide)⟩
  rw [h3]
  decide

/-- Claim C2 as stated fails.  With the pattern of `TestRotate` and a period of
one hour, a writer constructed at 2017-02-03 01:00:00 is on `2017-02-03.txt`,
which is empty.  A `Write` two hours later is strictly after the boundary and
every call succeeds; the rotation names `2017-02-03.txt` again, and the byte
written is appended to the file that was current before the call. -/
theorem Write_after_boundary_same_file :
    hourly.w.closed = false ∧ 0 < hourly.w.period
      ∧ (testTime.Add (2 * Hour)).After hourly.w.nextRotate = true
      ∧ hourly.w.thisFile = expectedFile1
      ∧ hourly.w.w = some (File.file expectedFile1 true)
      ∧ hourly.os.files hourly.w.thisFile = some []
      ∧ ∃ r, Write (okWrite (testTime.Add (2 * Hour))) "x".toList hourly.w hourly.os = some r
          ∧ r.err = none
          ∧ r.w.thisFile = hourly.w.thisFile
          ∧ r.os.files hourly.w.thisFile = some "x".toList
          ∧ r.os.files hourly.w.thisFile ≠ hourly.os.files hourly.w.thisFile := by
  refine ⟨by decide, by decide, by decide, by decide, by decide, by decide, ?_⟩
  have h := Write_rotate_ok (okWrite (testTime.Add (2 * Hour))) "x".toList hourly.w hourly.os
    expectedFile1 (by decide) (by decide) (by decide) rfl rfl rfl
  refine ⟨_, h, rfl, by decide, by decide, by decide⟩

theorem spawns_append (a b : List Event) : spawns (a ++ b) = spawns a ++ spawns b := by
  induction a with
  | nil => rfl
  | cons e a ih => cases e <;> simp [spawns, ih]

/-- The result of a `Write` that does not rotate. -/
theorem Write_no_rotate (env : WriteEnv) (p : GoString) (w : Writer) (os : World) (f : File)
    (hclosed : w.closed = false) (hafter : env.now.After w.nextRotate = false)
    (hw : w.w = some f) :
    Write env p w os = some
      { w := w
        os := (f.Write p env.written (os.record (Event.now env.now))).1
        n := (f.Write p env.written (os.record (Event.now env.now))).2.1
        err := (f.Write p env.written (os.record (Event.now env.now))).2.2 } := by
  unfold Write
  simp only [hclosed, hafter, Bool.false_eq_true, if_false, hw]

/-- The result of a `Write` that rotates. -/
theorem Write_rotate (env : WriteEnv) (p : GoString) (w : Writer) (os : World)
    (hclosed : w.closed = false) (hafter : env.now.After w.nextRotate = true) :
    Write env p w os =
      match (rotate env.rot w (os.record (Event.now env.now))).err with
      | some e =>
        some { w := (rotate env.rot w (os.record (Event.now env.now))).w
               os := (rotate env.rot w (os.record (Event.now env.now))).os
               n := 0, err := some e }
      | none =>
        match (rotate env.rot w (os.record (Event.now env.now))).w.w with
        | none => none
        | some f =>
          some { w := (rotate env.rot w (os.record (Event.now env.now))).w
                 os := (f.Write p env.written (rotate env.rot w (os.record (Event.now env.now))).os).1
                 n := (f.Write p env.written (rotate env.rot w (os.record (Event.now env.now))).os).2.1
                 err := (f.Write p env.written (rotate env.rot w (os.record (Event.now env.now))).os).2.2 } := by
  unfold Write
  simp only [hclosed, hafter, Bool.false_eq_true, if_false, if_true]

theorem File_Write_trace (f : File) (p : GoString) (o : Option (Nat × Error)) (os : World) :
    ∃ pre, (f.Write p o os).1.trace = pre ++ os.trace ∧ spawns pre = [] := by
  cases f with
  | nil => exact ⟨[], rfl, rfl⟩
  | file name isOpen =>
    cases isOpen with
    | false => exact ⟨[], rfl, rfl⟩
    | true => exact ⟨[Event.write name _], rfl, rfl⟩

theorem closeEvents_some (w : Writer) (prev : GoString) (g : RotationFunction)
    (h : w.OnRotate = some g) :
    closeEvents w prev = [Event.spawn g w.thisFile, Event.close prev none] := by
  simp [closeEvents, h]

theorem Write_closed (env : WriteEnv) (p : GoString) (w : Writer) (os : World)
    (hclosed : w.closed = true) :
    Write env p w os = some { w := w, os := os, n := 0, err := some Error.ErrClosed } := by
  simp [Write, hclosed]

/-- Claim C3.  For a writer with a callback `g` that holds an open file: a
`Write` that rotates (the writer is not closed and the clock is strictly after
`nextRotate`) and in which the release of the previous file succeeds starts `g`
exactly once, on the value that `thisFile` had before the call, right after the
release of the previous file; whatever the opening of the new file and the
write do afterwards, they start nothing.  A `Write` that does not rotate (the
writer is closed, or the clock is not after `nextRotate`) starts nothing. -/
theorem Write_callback (env : WriteEnv) (p : GoString) (w : Writer) (os : World)
    (g : RotationFunction) (prev : GoString) (hcb : w.OnRotate = some g)
    (hw : w.w = some (File.file prev true)) :
    (w.closed = false → env.now.After w.nextRotate = true → env.rot.closeErr = none →
      ∃ r pre, Write env p w os = some r
        ∧ r.os.trace = pre ++ Event.spawn g w.thisFile :: Event.close prev none
            :: Event.now env.now :: os.trace
        ∧ spawns pre = []
        ∧ spawns r.os.trace = (g, w.thisFile) :: spawns os.trace)
    ∧ (w.closed = true ∨ env.now.After w.nextRotate = false →
      ∃ r, Write env p w os = some r ∧ spawns r.os.trace = spawns os.trace) := by
  constructor
  · intro hclosed hafter hclose
    have key : ∃ r pre, Write env p w os = some r
        ∧ r.os.trace = pre ++ Event.spawn g w.thisFile :: Event.close prev none
            :: Event.now env.now :: os.trace
        ∧ spawns pre = [] := by
      rw [Write_rotate env p w os hclosed hafter,
        rotate_open_handle env.rot w _ prev hw hclose, closeEvents_some w _ g hcb]
      cases hopen : env.rot.openErr with
      | some e =>
        rw [rotateOpen_fail _ _ _ e hopen]
        exact ⟨_, [Event.openFile _ (some e), Event.mkdirAll _ _, Event.now _], rfl, rfl, rfl⟩
      | none =>
        rw [rotateOpen_ok _ _ _ hopen]
        exact ⟨_, [Event.write _ _, Event.openFile _ none, Event.mkdirAll _ _, Event.now _],
          rfl, rfl, rfl⟩
    obtain ⟨r, pre, h1, h2, h3⟩ := key
    refine ⟨r, pre, h1, h2, h3, ?_⟩
    rw [h2, spawns_append, h3]
    rfl
  · intro h
    rcases h with hclosed | hafter
    · exact ⟨_, Write_closed env p w os hclosed, rfl⟩
    · cases hclosed : w.closed with
      | true => exact ⟨_, Write_closed env p w os hclosed, rfl⟩
      | false =>
        refine ⟨_, Write_no_rotate env p w os _ hclosed hafter hw, ?_⟩
        obtain ⟨pre, h1, h2⟩ := File_Write_trace (File.file prev true) p env.written
          (os.record (Event.now env.now))
        simp only []
        rw [h1, spawns_append, h2]
        rfl

/-- The callback of `TestRotate`: after the clock has advanced by one day the
write starts the callback once, on `2017-02-03.txt`; a write on the first day
starts nothing. -/
theorem Write_callback_witness :
    (∃ r, Write (okWrite (testTime.Add (24 * Hour))) "Second Day, First Line\n".toList
          day1.w day1.os = some r
      ∧ spawns r.os.trace = [(7, expectedFile1)])
    ∧ ∃ r, Write (okWrite testTime) "First Day, First Line\n".toList day1.w day1.os = some r
      ∧ spawns r.os.trace = [] := by
  constructor
  · obtain ⟨r, pre, h1, -, -, h4⟩ :=
      (Write_callback (okWrite (testTime.Add (24 * Hour))) "Second Day, First Line\n".toList
        day1.w day1.os 7 expectedFile1 rfl (by decide)).1 (by decide) (by decide) rfl
    exact ⟨r, h1, h4.trans (by decide)⟩
  · obtain ⟨r, h1, h2⟩ :=
      (Write_callback (okWrite testTime) "First Day, First Line\n".toList
        day1.w day1.os 7 expectedFile1 rfl (by decide)).2 (Or.inr (by decide))
    exact ⟨r, h1, h2.trans (by decide)⟩

/-- Claim C4.  For a writer that is not closed, `Write` goes through `rotate`
exactly when the reading of the clock is strictly after `nextRotate`.  When it
is, the result is that of `rotate` followed, if `rotate` gave no error, by the
write on the file that `rotate` left in `w`, and is the count 0 with the error
of `rotate` otherwise.  When it is not, the writer is returned unchanged
(`thisFile`, `nextRotate` and `w` among its fields) and the count and the
error are those of the write of the bytes on the file held in `w`; on the nil
interface the call panics. -/
theorem Write_rotates_iff_after (env : WriteEnv) (p : GoString) (w : Writer) (os : World)
    (hclosed : w.closed = false) :
    (env.now.After w.nextRotate = true ↔ w.nextRotate.ns < env.now.ns)
    ∧ (env.now.After w.nextRotate = true →
        (∀ e, (rotate env.rot w (os.record (Event.now env.now))).err = some e →
          Write env p w os = some
            { w := (rotate env.rot w (os.record (Event.now env.now))).w
              os := (rotate env.rot w (os.record (Event.now env.now))).os
              n := 0, err := some e })
        ∧ ((rotate env.rot w (os.record (Event.now env.now))).err = none →
          ∃ f, (rotate env.rot w (os.record (Event.now env.now))).w.w = some f
            ∧ Write env p w os = some
              { w := (rotate env.rot w (os.record (Event.now env.now))).w
                os := (f.Write p env.written
                  (rotate env.rot w (os.record (Event.now env.now))).os).1
                n := (f.Write p env.written
                  (rotate env.rot w (os.record (Event.now env.now))).os).2.1
                err := (f.Write p env.written
                  (rotate env.rot w (os.record (Event.now env.now))).os).2.2 }))
    ∧ (env.now.After w.nextRotate = false →
        (∀ f, w.w = some f →
          Write env p w os = some
            { w := w
              os := (f.Write p env.written (os.record (Event.now env.now))).1
              n := (f.Write p env.written (os.record (Event.now env.now))).2.1
              err := (f.Write p env.written (os.record (Event.now env.now))).2.2 })
        ∧ (w.w = none → Write env p w os = none)) := by
  refine ⟨by simp [Time.After], ?_, ?_⟩
  · intro hafter
    rw [Write_rotate env p w os hclosed hafter]
    constructor
    · intro e he
      rw [he]
    · intro he
      rw [he]
      have hsome : ∃ f, (rotate env.rot w (os.record (Event.now env.now))).w.w = some f := by
        revert he
        unfold rotate
        cases w.w with
        | none => intro _; exact ⟨_, rfl⟩
        | some f =>
          simp only []
          cases hc : (f.Close env.rot.closeErr (os.record (Event.now env.now))).2.2 with
          | some e => simp [hc]
          | none =>
            simp only [hc]
            cases w.OnRotate <;> intro _ <;> exact ⟨_, rfl⟩
      obtain ⟨f, hf⟩ := hsome
      exact ⟨f, hf, by rw [hf]⟩
  · intro hafter
    constructor
    · intro f hf
      exact Write_no_rotate env p w os f hclosed hafter hf
    · intro hnone
      simp [Write, hclosed, hafter, hnone]

/-- The first write of `TestRotate`: the clock is not after the boundary, the
writer is unchanged and the 22 bytes are written on the first file. -/
theorem Write_rotates_iff_after_witness :
    (testTime.After day1.w.nextRotate = true ↔ day1.w.nextRotate.ns < testTime.ns)
      ∧ Write (okWrite testTime) "First Day, First Line\n".toList day1.w day1.os = some
          { w := day1.w
            os := ((File.file expectedFile1 true).Write "First Day, First Line\n".toList none
              (day1.os.record (Event.now testTime))).1
            n := 22
            err := none } :=
  ⟨(Write_rotates_iff_after (okWrite testTime) "First Day, First Line\n".toList day1.w day1.os
      (by decide)).1,
   ((Write_rotates_iff_after (okWrite testTime) "First Day, First Line\n".toList day1.w day1.os
      (by decide)).2.2 (by decide)).1 (File.file expectedFile1 true) (by decide)⟩

/-- Claim C5, at the failing input.  The writer of `TestRotate`, constructed at
2017-02-03 01:00:00 with a period of 24 hours, has its boundary at 2017-02-04
00:00:00.  A `Write` at exactly that reading does not rotate: the byte goes to
`2017-02-03.txt`, `2017-02-04.txt` is not created and no callback is started,
although a rotation at that reading names `2017-02-04.txt`. -/
theorem Write_at_boundary_keeps_old_file :
    day1.w.closed = false
      ∧ day1.w.thisFile = expectedFile1
      ∧ day1.w.nextRotate.ns = (Date 2017 2 4 0 0 0).ns
      ∧ (Date 2017 2 4 0 0 0).After day1.w.nextRotate = false
      ∧ periodName day1.w (Date 2017 2 4 0 0 0) = expectedFile2
      ∧ (Write (okWrite (Date 2017 2 4 0 0 0)) "x".toList day1.w day1.os).map
          (fun r => (r.err, r.w.thisFile, r.os.files expectedFile1, r.os.files expectedFile2,
            spawns r.os.trace))
        = some (none, expectedFile1, some "x".toList, none, []) := by
  refine ⟨by decide, by decide, by decide, by decide, by decide, ?_⟩
  rfl

theorem run_writes_closed (w : Writer) (os : World) (hclosed : w.closed = true)
    (ws : List (WriteEnv × GoString)) :
    run (ws.map (fun x => Op.write x.1 x.2)) w os = some (w, os) := by
  induction ws with
  | nil => rfl
  | cons x ws ih =>
    simp only [List.map_cons, run, step, Write_closed x.1 x.2 w os hclosed, Option.map]
    exact ih

/-- Claim C6.  `Close` on a writer that holds a file value returns with the
writer closed, and from then on every `Write`, whatever the clock and the
outcomes offered to it, returns the count 0 and `os.ErrClosed` and leaves the
writer and the system (files, descriptors and trace: no rotation, no callback)
exactly as they were; so does every sequence of such calls. -/
theorem Close_terminal (closeErr : Option Error) (w : Writer) (os : World) (f : File)
    (hw : w.w = some f) :
    ∃ r, Close closeErr w os = some r
      ∧ r.w.closed = true
      ∧ (∀ env p, Write env p r.w r.os
          = some { w := r.w, os := r.os, n := 0, err := some Error.ErrClosed })
      ∧ (∀ ws : List (WriteEnv × GoString),
          run (ws.map (fun x => Op.write x.1 x.2)) r.w r.os = some (r.w, r.os)) := by
  have hc : ∃ r, Close closeErr w os = some r ∧ r.w.closed = true := by
    unfold Close
    simp only [hw]
    exact ⟨_, rfl, rfl⟩
  obtain ⟨r, h1, h2⟩ := hc
  exact ⟨r, h1, h2, fun env p => Write_closed env p r.w r.os h2,
    fun ws => run_writes_closed r.w r.os h2 ws⟩

/-- The property of `Close` on the writer of `TestRotate`. -/
theorem Close_terminal_witness :
    ∃ r, Close none day1.w day1.os = some r
      ∧ r.w.closed = true
      ∧ (∀ env p, Write env p r.w r.os
          = some { w := r.w, os := r.os, n := 0, err := some Error.ErrClosed })
      ∧ (∀ ws : List (WriteEnv × GoString),
          run (ws.map (fun x => Op.write x.1 x.2)) r.w r.os = some (r.w, r.os)) :=
  Close_terminal none day1.w day1.os (File.file expectedFile1 true) (by decide)

theorem lastRotationClock_now (t : Time) (tr : List Event) :
    lastRotationClock (Event.now t :: tr) = lastRotationClock tr := by
  simp [lastRotationClock]

theorem lastRotationClock_close (n : GoString) (e : Option Error) (tr : List Event) :
    lastRotationClock (Event.close n e :: tr) = lastRotationClock tr := by
  simp [lastRotationClock]

theorem lastRotationClock_write (n d : GoString) (tr : List Event) :
    lastRotationClock (Event.write n d :: tr) = lastRotationClock tr := by
  simp [lastRotationClock]

theorem lastRotationClock_openFile (n : GoString) (e : Option Error) (tr : List Event) :
    lastRotationClock (Event.openFile n e :: tr) = lastRotationClock tr := by
  simp [lastRotationClock]

theorem lastRotationClock_mkdirAll (n : GoString) (e : Option Error) (t : Time)
    (tr : List Event) :
    lastRotationClock (Event.mkdirAll n e :: Event.now t :: tr) = some t := by
  simp [lastRotationClock]

theorem Inv_of_eq (pattern : GoString) (period : Duration) (w w1 : Writer)
    (tr tr1 : List Event) (h : Inv pattern period w tr)
    (hp : w1.filePattern = w.filePattern) (hd : w1.period = w.period)
    (hf : ∃ f, w1.w = some f) (hn : w1.thisFile = w.thisFile)
    (hr : w1.nextRotate = w.nextRotate)
    (ht : lastRotationClock tr1 = lastRotationClock tr) : Inv pattern period w1 tr1 := by
  obtain ⟨h1, h2, -, t, h4, h5, h6⟩ := h
  exact ⟨hp.trans h1, hd.trans h2, hf, t, ht.trans h4, hn.trans h5, hr.trans h6⟩

theorem rotateOpen_Inv (env : RotateEnv) (w : Writer) (os : World) :
    Inv w.filePattern w.period (rotateOpen env w os).w (rotateOpen env w os).os.trace := by
  cases hopen : env.openErr with
  | none =>
    rw [rotateOpen_ok env w os hopen]
    exact ⟨rfl, rfl, ⟨_, rfl⟩, env.now,
      by simp only [lastRotationClock_openFile, lastRotationClock_mkdirAll],
      periodName_eq w env.now, rfl⟩
  | some e =>
    rw [rotateOpen_fail env w os e hopen]
    exact ⟨rfl, rfl, ⟨_, rfl⟩, env.now,
      by simp only [lastRotationClock_openFile, lastRotationClock_mkdirAll],
      periodName_eq w env.now, rfl⟩

theorem rotate_Inv (env : RotateEnv) (w : Writer) (os : World)
    (h : w.w = none ∨ Inv w.filePattern w.period w os.trace) :
    Inv w.filePattern w.period (rotate env w os).w (rotate env w os).os.trace := by
  unfold rotate
  cases hw : w.w with
  | none => exact rotateOpen_Inv env w os
  | some f =>
    have hinv : Inv w.filePattern w.period w os.trace := by
      rcases h with h | h
      · rw [hw] at h; cases h
      · exact h
    cases f with
    | nil => exact Inv_of_eq _ _ w _ _ _ hinv rfl rfl ⟨_, rfl⟩ rfl rfl rfl
    | file name isOpen =>
      cases isOpen with
      | false => exact Inv_of_eq _ _ w _ _ _ hinv rfl rfl ⟨_, rfl⟩ rfl rfl rfl
      | true =>
        cases hc : env.closeErr with
        | some e =>
          simp only [File.Close, hc]
          exact Inv_of_eq _ _ w _ _ _ hinv rfl rfl ⟨_, rfl⟩ rfl rfl
            (lastRotationClock_close _ _ _)
        | none =>
          simp only [File.Close, hc]
          cases w.OnRotate with
          | none => exact rotateOpen_Inv env _ _
          | some g => exact rotateOpen_Inv env _ _

theorem File_Write_clock (f : File) (p : GoString) (o : Option (Nat × Error)) (os : World) :
    lastRotationClock (f.Write p o os).1.trace = lastRotationClock os.trace := by
  cases f with
  | nil => rfl
  | file name isOpen =>
    cases isOpen with
    | false => rfl
    | true => exact lastRotationClock_write _ _ _

theorem Write_Inv (pattern : GoString) (period : Duration) (env : WriteEnv) (p : GoString)
    (w : Writer) (os : World) (h : Inv pattern period w os.trace) :
    ∃ r, Write env p w os = some r ∧ Inv pattern period r.w r.os.trace := by
  cases hclosed : w.closed with
  | true => exact ⟨_, Write_closed env p w os hclosed, h⟩
  | false =>
    cases hafter : env.now.After w.nextRotate with
    | false =>
      obtain ⟨f, hf⟩ := h.2.2.1
      refine ⟨_, Write_no_rotate env p w os f hclosed hafter hf, ?_⟩
      exact Inv_of_eq _ _ w _ _ _ h rfl rfl ⟨f, hf⟩ rfl rfl
        ((File_Write_clock f p env.written _).trans (lastRotationClock_now _ _))
    | true =>
      have hp := h.1
      have hd := h.2.1
      have h0 : Inv w.filePattern w.period w (os.record (Event.now env.now)).trace := by
        rw [hp, hd]
        exact Inv_of_eq _ _ w _ _ _ h rfl rfl h.2.2.1 rfl rfl (lastRotationClock_now _ _)
      have hr := rotate_Inv env.rot w (os.record (Event.now env.now)) (Or.inr h0)
      rw [hp, hd] at hr
      rw [Write_rotate env p w os hclosed hafter]
      cases he : (rotate env.rot w (os.record (Event.now env.now))).err with
      | some e => exact ⟨_, rfl, hr⟩
      | none =>
        obtain ⟨f, hf⟩ := hr.2.2.1
        simp only [hf]
        refine ⟨_, rfl, ?_⟩
        exact Inv_of_eq _ _ _ _ _ _ hr rfl rfl ⟨f, hf⟩ rfl rfl (File_Write_clock f p env.written _)

theorem Close_Inv (pattern : GoString) (period : Duration) (closeErr : Option Error)
    (w : Writer) (os : World) (h : Inv pattern period w os.trace) :
    ∃ r, Close closeErr w os = some r ∧ Inv pattern period r.w r.os.trace
      ∧ r.w.thisFile = w.thisFile ∧ r.w.nextRotate = w.nextRotate := by
  obtain ⟨f, hf⟩ := h.2.2.1
  unfold Close
  simp only [hf]
  refine ⟨_, rfl, ?_, rfl, rfl⟩
  cases f with
  | nil => exact Inv_of_eq _ _ w _ _ _ h rfl rfl ⟨_, rfl⟩ rfl rfl rfl
  | file name isOpen =>
    cases isOpen with
    | false => exact Inv_of_eq _ _ w _ _ _ h rfl rfl ⟨_, rfl⟩ rfl rfl rfl
    | true =>
      exact Inv_of_eq _ _ w _ _ _ h rfl rfl ⟨_, rfl⟩ rfl rfl (lastRotationClock_close _ _ _)

theorem run_Inv (pattern : GoString) (period : Duration) (ops : List Op) :
    ∀ (w : Writer) (os : World), Inv pattern period w os.trace →
      ∃ w1 os1, run ops w os = some (w1, os1) ∧ Inv pattern period w1 os1.trace := by
  induction ops with
  | nil => intro w os h; exact ⟨w, os, rfl, h⟩
  | cons op ops ih =>
    intro w os h
    cases op with
    | write env p =>
      obtain ⟨r, h1, h2⟩ := Write_Inv pattern period env p w os h
      obtain ⟨w1, os1, h3, h4⟩ := ih r.w r.os h2
      exact ⟨w1, os1, by simp only [run, step, h1, Option.map]; exact h3, h4⟩
    | close closeErr =>
      obtain ⟨r, h1, h2, -, -⟩ := Close_Inv pattern period closeErr w os h
      obtain ⟨w1, os1, h3, h4⟩ := ih r.w r.os h2
      exact ⟨w1, os1, by simp only [run, step, h1, Option.map]; exact h3, h4⟩

theorem NewWriter_Inv (env : RotateEnv) (pattern : GoString) (period : Duration)
    (onRotate : Option RotationFunction) (os : World) :
    Inv pattern period (NewWriter env pattern period onRotate os).w
      (NewWriter env pattern period onRotate os).os.trace :=
  rotate_Inv env _ os (Or.inl rfl)

theorem Truncate_bounds (t : Time) (d : Duration) (hd : 0 < d) :
    d ∣ (t.Truncate d).ns ∧ (t.Truncate d).ns ≤ t.ns ∧ t.ns < (t.Truncate d).ns + d := by
  unfold Time.Truncate
  rw [if_neg (not_le.2 hd)]
  simp only [Time.Add]
  have h1 := Int.emod_nonneg t.ns (ne_of_gt hd)
  have h2 := Int.emod_lt_of_pos t.ns hd
  refine ⟨?_, by omega, by omega⟩
  have := Int.emod_add_ediv t.ns d
  exact ⟨t.ns / d, by linarith⟩

/-- Claim C7.  Every sequence of `Write` and `Close` calls after a construction
runs without a panic, and in the state it reaches the trace holds a latest
rotation that went on to open a file, at a reading `t` of the clock, such that
`thisFile` is the pattern expanded at `t` truncated to the period and
`nextRotate` is that truncated time plus the period; the truncated time is the
multiple of the period with `t` in the period that starts there (and is `t`
itself when the period is not positive).  In such a state a `Write` that does
not rotate and a `Close` leave `thisFile` and `nextRotate` unchanged. -/
theorem reachable_path_and_boundary (cenv : RotateEnv) (pattern : GoString)
    (period : Duration) (onRotate : Option RotationFunction) (os0 : World) (ops : List Op) :
    ∃ w os,
      run ops (NewWriter cenv pattern period onRotate os0).w
          (NewWriter cenv pattern period onRotate os0).os = some (w, os)
      ∧ (∃ t, lastRotationClock os.trace = some t
          ∧ w.thisFile = expandTokens (fieldOf (t.Truncate period)) pattern
          ∧ w.nextRotate = (t.Truncate period).Add period
          ∧ (period ≤ 0 ∧ t.Truncate period = t
              ∨ period ∣ (t.Truncate period).ns ∧ (t.Truncate period).ns ≤ t.ns
                ∧ t.ns < (t.Truncate period).ns + period))
      ∧ (∀ env p, w.closed = true ∨ env.now.After w.nextRotate = false →
          ∃ r, Write env p w os = some r
            ∧ r.w.thisFile = w.thisFile ∧ r.w.nextRotate = w.nextRotate)
      ∧ (∀ closeErr, ∃ r, Close closeErr w os = some r
            ∧ r.w.thisFile = w.thisFile ∧ r.w.nextRotate = w.nextRotate) := by
  obtain ⟨w, os, hrun, hinv⟩ := run_Inv pattern period ops _ _
    (NewWriter_Inv cenv pattern period onRotate os0)
  refine ⟨w, os, hrun, ?_, ?_, ?_⟩
  · obtain ⟨-, -, -, t, h1, h2, h3⟩ := hinv
    refine ⟨t, h1, h2, h3, ?_⟩
    by_cases hp : period ≤ 0
    · exact Or.inl ⟨hp, by simp [Time.Truncate, hp]⟩
    · exact Or.inr (Truncate_bounds t period (not_le.1 hp))
  · intro env p h
    cases hclosed : w.closed with
    | true => exact ⟨_, Write_closed env p w os hclosed, rfl, rfl⟩
    | false =>
      have hafter : env.now.After w.nextRotate = false := by
        rcases h with h | h
        · rw [hclosed] at h; cases h
        · exact h
      obtain ⟨f, hf⟩ := hinv.2.2.1
      exact ⟨_, Write_no_rotate env p w os f hclosed hafter hf, rfl, rfl⟩
  · intro closeErr
    obtain ⟨r, h1, -, h3, h4⟩ := Close_Inv pattern period closeErr w os hinv
    exact ⟨r, h1, h3, h4⟩

/-- The result of a `Write` that appends to an open file without rotating. -/
theorem Write_append (env : WriteEnv) (p : GoString) (w : Writer) (os : World)
    (name : GoString) (hclosed : w.closed = false)
    (hafter : env.now.After w.nextRotate = false)
    (hw : w.w = some (File.file name true)) (hwritten : env.written = none) :
    Write env p w os = some
      { w := w
        os := { files := setFile os.files name (contentOf os.files name ++ p)
                openFiles := os.openFiles
                trace := Event.write name p :: Event.now env.now :: os.trace }
        n := p.length
        err := none } := by
  rw [Write_no_rotate env p w os _ hclosed hafter hw]
  simp only [File.Write, hwritten, World.record, Option.map]

/-- Claim C8.  For a writer that is not closed and holds the open file of
`thisFile`, two successful writes of `a` and then `b`, both issued while the
clock is not after `nextRotate`, return the lengths of `a` and `b`, leave the
writer unchanged, make the content of `thisFile` its previous content followed
by `a` followed by `b`, and change the content of no other path. -/
theorem Write_twice_appends (e1 e2 : WriteEnv) (a b : GoString) (w : Writer) (os : World)
    (hclosed : w.closed = false) (hw : w.w = some (File.file w.thisFile true))
    (h1 : e1.now.After w.nextRotate = false) (h2 : e2.now.After w.nextRotate = false)
    (hw1 : e1.written = none) (hw2 : e2.written = none) :
    ∃ r1 r2, Write e1 a w os = some r1 ∧ Write e2 b r1.w r1.os = some r2
      ∧ r1.n = a.length ∧ r1.err = none ∧ r2.n = b.length ∧ r2.err = none
      ∧ r2.w = w
      ∧ r2.os.files w.thisFile = some (contentOf os.files w.thisFile ++ a ++ b)
      ∧ ∀ q, q ≠ w.thisFile → r2.os.files q = os.files q := by
  refine ⟨_, _, Write_append e1 a w os w.thisFile hclosed h1 hw hw1,
    Write_append e2 b w _ w.thisFile hclosed h2 hw hw2, rfl, rfl, rfl, rfl, rfl, ?_, ?_⟩
  · simp only [contentOf_setFile, setFile_same]
  · intro q hq
    simp only [setFile_other _ _ _ _ hq]

/-- The first day of `TestRotate`: the two lines written to the fresh file are
its content, in the order of the calls. -/
theorem Write_twice_appends_witness :
    ∃ r1 r2,
      Write (okWrite testTime) "First Day, First Line\n".toList day1.w day1.os = some r1
      ∧ Write (okWrite testTime) "First Day, Second Line\n".toList r1.w r1.os = some r2
      ∧ r2.os.files expectedFile1
        = some "First Day, First Line\nFirst Day, Second Line\n".toList := by
  obtain ⟨r1, r2, h1, h2, -, -, -, -, -, h3, -⟩ :=
    Write_twice_appends (okWrite testTime) (okWrite testTime)
      "First Day, First Line\n".toList "First Day, Second Line\n".toList day1.w day1.os
      (by decide) (by decide) (by decide) (by decide) rfl rfl
  refine ⟨r1, r2, h1, h2, ?_⟩
  have e : day1.w.thisFile = expectedFile1 := by decide
  rw [e] at h3
  rw [h3]
  decide

theorem setFile_contentOf (files : GoString → Option GoString) (name c : GoString)
    (h : files name = some c) : setFile files name (contentOf files name) = files := by
  funext q
  by_cases hq : q = name
  · subst hq; simp [setFile, contentOf, h]
  · simp [setFile, hq]

/-- The result of a construction in which the file is opened. -/
theorem NewWriter_ok (env : RotateEnv) (pattern : GoString) (period : Duration)
    (onRotate : Option RotationFunction) (os : World) (hopen : env.openErr = none) :
    NewWriter env pattern period onRotate os =
      { w := { OnRotate := onRotate
               w := some (File.file
                 (expandTokens (fieldOf (env.now.Truncate period)) pattern) true)
               closed := false
               filePattern := pattern
               thisFile := expandTokens (fieldOf (env.now.Truncate period)) pattern
               nextRotate := (env.now.Truncate period).Add period
               period := period }
        os := { files := setFile os.files
                  (expandTokens (fieldOf (env.now.Truncate period)) pattern)
                  (contentOf os.files
                    (expandTokens (fieldOf (env.now.Truncate period)) pattern))
                openFiles := expandTokens (fieldOf (env.now.Truncate period)) pattern
                  :: os.openFiles
                trace := Event.openFile
                    (expandTokens (fieldOf (env.now.Truncate period)) pattern) none
                  :: Event.mkdirAll
                    (expandTokens (fieldOf (env.now.Truncate period)) pattern) env.mkdirErr
                  :: Event.now env.now :: os.trace }
        err := none } := by
  unfold NewWriter rotate
  simp only []
  rw [rotateOpen_ok _ _ _ hopen, periodName_eq]

/-- The result of a construction in which the file cannot be opened. -/
theorem NewWriter_fail (env : RotateEnv) (pattern : GoString) (period : Duration)
    (onRotate : Option RotationFunction) (os : World) (e : Error)
    (hopen : env.openErr = some e) :
    NewWriter env pattern period onRotate os =
      { w := { OnRotate := onRotate
               w := some File.nil
               closed := false
               filePattern := pattern
               thisFile := expandTokens (fieldOf (env.now.Truncate period)) pattern
               nextRotate := (env.now.Truncate period).Add period
               period := period }
        os := { files := os.files
                openFiles := os.openFiles
                trace := Event.openFile
                    (expandTokens (fieldOf (env.now.Truncate period)) pattern) (some e)
                  :: Event.mkdirAll
                    (expandTokens (fieldOf (env.now.Truncate period)) pattern) env.mkdirErr
                  :: Event.now env.now :: os.trace }
        err := some e } := by
  unfold NewWriter rotate
  simp only []
  rw [rotateOpen_fail _ _ _ e hopen, periodName_eq]

/-- Claim C9, amended.  When the path that the pattern expands to for the
period of the construction exists with content `c`, a construction names that
path and leaves the content of every path, and so of that one, as it was.  When
the construction opened the file, a following successful `Write` of `b`, issued
while the clock is not after the boundary of that period, returns the length
of `b` and makes the content of the path `c` followed by `b`, the other paths
keeping their content. -/
theorem NewWriter_reopen_appends (cenv : RotateEnv) (pattern : GoString) (period : Duration)
    (onRotate : Option RotationFunction) (os : World) (c : GoString)
    (hex : os.files (expandTokens (fieldOf (cenv.now.Truncate period)) pattern) = some c) :
    (NewWriter cenv pattern period onRotate os).w.thisFile
        = expandTokens (fieldOf (cenv.now.Truncate period)) pattern
      ∧ (NewWriter cenv pattern period onRotate os).os.files = os.files
      ∧ (cenv.openErr = none →
          (NewWriter cenv pattern period onRotate os).err = none
          ∧ ∀ env b,
              env.now.After (NewWriter cenv pattern period onRotate os).w.nextRotate = false →
              env.written = none →
              ∃ r, Write env b (NewWriter cenv pattern period onRotate os).w
                    (NewWriter cenv pattern period onRotate os).os = some r
                ∧ r.n = b.length ∧ r.err = none
                ∧ r.os.files (expandTokens (fieldOf (cenv.now.Truncate period)) pattern)
                  = some (c ++ b)
                ∧ ∀ q, q ≠ expandTokens (fieldOf (cenv.now.Truncate period)) pattern →
                    r.os.files q = os.files q) := by
  cases hopen : cenv.openErr with
  | some e =>
    rw [NewWriter_fail cenv pattern period onRotate os e hopen]
    exact ⟨rfl, rfl, fun h => by cases h⟩
  | none =>
    rw [NewWriter_ok cenv pattern period onRotate os hopen]
    refine ⟨rfl, setFile_contentOf _ _ c hex, fun _ => ⟨rfl, ?_⟩⟩
    intro env b hafter hwritten
    refine ⟨_, Write_append env b _ _ _ rfl hafter rfl hwritten, rfl, rfl, ?_, ?_⟩
    · simp only [setFile_same, contentOf_setFile, contentOf, hex, Option.getD]
    · intro q hq
      simp only [setFile_other _ _ _ _ hq]

/-- The last part of `TestRotate`: a writer constructed on the second day, with
`2017-02-04.txt` holding the two lines of that day, names that file, and the
line written next is appended to them. -/
theorem NewWriter_reopen_appends_witness :
    (NewWriter (okRotate (testTime.Add (24 * Hour))) testPattern (24 * Hour) (some 7)
        secondDayWorld).w.thisFile = expectedFile2
      ∧ ∃ r, Write (okWrite (testTime.Add (24 * Hour))) "Appended\n".toList
            (NewWriter (okRotate (testTime.Add (24 * Hour))) testPattern (24 * Hour) (some 7)
              secondDayWorld).w
            (NewWriter (okRotate (testTime.Add (24 * Hour))) testPattern (24 * Hour) (some 7)
              secondDayWorld).os = some r
          ∧ r.os.files expectedFile2
            = some "Second Day, First Line\nSecond Day, Second Line\nAppended\n".toList := by
  have h := NewWriter_reopen_appends (okRotate (testTime.Add (24 * Hour))) testPattern
    (24 * Hour) (some 7) secondDayWorld
    "Second Day, First Line\nSecond Day, Second Line\n".toList (by decide)
  have e : expandTokens (fieldOf ((okRotate (testTime.Add (24 * Hour))).now.Truncate
      (24 * Hour))) testPattern = expectedFile2 := by decide
  rw [e] at h
  obtain ⟨h2, -, h3⟩ := h
  refine ⟨h2, ?_⟩
  obtain ⟨r, h5, -, -, h6, -⟩ := (h3 rfl).2 (okWrite (testTime.Add (24 * Hour)))
    "Appended\n".toList (by decide) rfl
  exact ⟨r, h5, h6.trans (by decide)⟩

theorem File_Close_spawns (f : File) (o : Option Error) (os : World) :
    spawns (f.Close o os).2.1.trace = spawns os.trace := by
  cases f with
  | nil => rfl
  | file name isOpen =>
    cases isOpen with
    | false => rfl
    | true => rfl

/-- Claim C10.  A construction starts no callback, whatever the pattern, the
period, the callback, the clock and the outcomes of its calls; and `Close`, in
every state of the writer, starts no callback (it either returns, with the
same goroutines started as before, or panics on the nil interface). -/
theorem no_callback_for_first_or_last_file (cenv : RotateEnv) (pattern : GoString)
    (period : Duration) (onRotate : Option RotationFunction) (os0 : World)
    (closeErr : Option Error) (w : Writer) (os : World) :
    spawns (NewWriter cenv pattern period onRotate os0).os.trace = spawns os0.trace
      ∧ (match Close closeErr w os with
          | some r => spawns r.os.trace = spawns os.trace
          | none => w.w = none) := by
  constructor
  · unfold NewWriter rotate
    simp only []
    cases hopen : cenv.openErr with
    | none => rw [rotateOpen_ok _ _ _ hopen]; rfl
    | some e => rw [rotateOpen_fail _ _ _ e hopen]; rfl
  · unfold Close
    cases hw : w.w with
    | none => simp only []
    | some f => exact File_Close_spawns f closeErr os

/-! ## Failures, descriptors, boundaries and field widths -/

/-- Claim C11, at the failing input.  When `os.MkdirAll` fails and `os.OpenFile`
succeeds, a construction returns no error, and so does a `Write` that rotates:
the failure is recorded in the trace of the calls and is in no result. -/
theorem mkdir_failure_not_returned :
    (NewWriter (mkdirFails testTime) testPattern (24 * Hour) (some 7) emptyWorld).err = none
      ∧ (NewWriter (mkdirFails testTime) testPattern (24 * Hour) (some 7) emptyWorld).os.trace
          = [Event.openFile expectedFile1 none, Event.mkdirAll expectedFile1 (some mkdirDenied),
              Event.now testTime]
      ∧ (testTime.Add (24 * Hour)).After day1.w.nextRotate = true
      ∧ ∃ r, Write (mkdirFailsWrite (testTime.Add (24 * Hour))) "x".toList day1.w day1.os
            = some r
          ∧ r.n = 1 ∧ r.err = none
          ∧ r.w.thisFile = expectedFile2
          ∧ creations r.os.trace = [expectedFile2, expectedFile2, expectedFile1, expectedFile1] := by
  refine ⟨rfl, ?_, by decide, ?_⟩
  · rw [NewWriter_ok _ _ _ _ _ rfl]
    have e : expandTokens (fieldOf ((mkdirFails testTime).now.Truncate (24 * Hour))) testPattern
        = expectedFile1 := by decide
    rw [e]
    rfl
  · have h := Write_rotate_ok (mkdirFailsWrite (testTime.Add (24 * Hour))) "x".toList
      day1.w day1.os expectedFile1 (by decide) (by decide) (by decide) rfl rfl rfl
    refine ⟨_, h, rfl, rfl, by decide, ?_⟩
    have e : periodName day1.w (testTime.Add (24 * Hour)) = expectedFile2 := by decide
    simp only [mkdirFailsWrite, mkdirFails, e]
    decide

theorem rotate_close_fail (env : RotateEnv) (w : Writer) (os : World) (f : File) (e : Error)
    (hw : w.w = some f) (hc : (f.Close env.closeErr os).2.2 = some e) :
    rotate env w os =
      { w := { w with w := some (f.Close env.closeErr os).1 }
        os := (f.Close env.closeErr os).2.1
        err := some e } := by
  unfold rotate
  simp only [hw, hc]

theorem rotate_close_ok (env : RotateEnv) (w : Writer) (os : World) (f : File)
    (hw : w.w = some f) (hc : (f.Close env.closeErr os).2.2 = none) :
    rotate env w os =
      rotateOpen env { w with w := some (f.Close env.closeErr os).1 }
        (match w.OnRotate with
          | some g => (f.Close env.closeErr os).2.1.record (Event.spawn g w.thisFile)
          | none => (f.Close env.closeErr os).2.1) := by
  unfold rotate
  simp only [hw, hc]
  cases w.OnRotate <;> rfl

theorem rotate_nil (env : RotateEnv) (w : Writer) (os : World) (hw : w.w = none) :
    rotate env w os = rotateOpen env w os := by
  unfold rotate
  simp only [hw]

theorem File_Close_files (f : File) (o : Option Error) (os : World) :
    (f.Close o os).2.1.files = os.files := by
  cases f with
  | nil => rfl
  | file name isOpen => cases isOpen <;> rfl

theorem File_Close_writes (f : File) (o : Option Error) (os : World) :
    writes (f.Close o os).2.1.trace = writes os.trace := by
  cases f with
  | nil => rfl
  | file name isOpen => cases isOpen <;> rfl

theorem File_Close_creations (f : File) (o : Option Error) (os : World) :
    creations (f.Close o os).2.1.trace = creations os.trace := by
  cases f with
  | nil => rfl
  | file name isOpen => cases isOpen <;> rfl

/-- Claim C12.  For a `Write` that rotates (the writer is not closed and the
clock is strictly after `nextRotate`): when the close of the file held in `w`
fails with `e`, and when that close succeeds, or there is no file to close, and
the opening of the new file fails with `e`, `Write` returns the count 0 and the
error `e`, the content and the existence of every path are as before, and no
write on a file is made. -/
theorem Write_failed_rotation (env : WriteEnv) (p : GoString) (w : Writer) (os : World)
    (hclosed : w.closed = false) (hafter : env.now.After w.nextRotate = true) :
    (∀ f e, w.w = some f →
        (f.Close env.rot.closeErr (os.record (Event.now env.now))).2.2 = some e →
        ∃ r, Write env p w os = some r ∧ r.n = 0 ∧ r.err = some e
          ∧ r.os.files = os.files ∧ writes r.os.trace = writes os.trace)
    ∧ (∀ e, env.rot.openErr = some e →
        (w.w = none ∨ ∃ f, w.w = some f
          ∧ (f.Close env.rot.closeErr (os.record (Event.now env.now))).2.2 = none) →
        ∃ r, Write env p w os = some r ∧ r.n = 0 ∧ r.err = some e
          ∧ r.os.files = os.files ∧ writes r.os.trace = writes os.trace) := by
  constructor
  · intro f e hw hc
    rw [Write_rotate env p w os hclosed hafter, rotate_close_fail env.rot w _ f e hw hc]
    exact ⟨_, rfl, rfl, rfl, File_Close_files _ _ _, File_Close_writes _ _ _⟩
  · intro e hopen h
    rw [Write_rotate env p w os hclosed hafter]
    rcases h with hw | ⟨f, hw, hc⟩
    · rw [rotate_nil env.rot w _ hw, rotateOpen_fail _ _ _ e hopen]
      exact ⟨_, rfl, rfl, rfl, rfl, rfl⟩
    · rw [rotate_close_ok env.rot w _ f hw hc, rotateOpen_fail _ _ _ e hopen]
      refine ⟨_, rfl, rfl, rfl, ?_, ?_⟩
      · cases w.OnRotate <;> exact File_Close_files _ _ _
      · cases w.OnRotate <;> exact File_Close_writes _ _ _

/-- The second day of `TestRotate` with a failing close, and with a failing
open: the count is 0, the error is the one that occurred, and the files are
those of the first day. -/
theorem Write_failed_rotation_witness :
    (∃ r, Write (closeFailsWrite (testTime.Add (24 * Hour))) "x".toList day1.w day1.os = some r
        ∧ r.n = 0 ∧ r.err = some closeIO
        ∧ r.os.files = day1.os.files ∧ writes r.os.trace = writes day1.os.trace)
    ∧ ∃ r, Write (openFailsWrite (testTime.Add (24 * Hour))) "x".toList day1.w day1.os = some r
        ∧ r.n = 0 ∧ r.err = some openDenied
        ∧ r.os.files = day1.os.files ∧ writes r.os.trace = writes day1.os.trace :=
  ⟨(Write_failed_rotation (closeFailsWrite (testTime.Add (24 * Hour))) "x".toList day1.w day1.os
      (by decide) (by decide)).1 (File.file expectedFile1 true) closeIO (by decide) rfl,
   (Write_failed_rotation (openFailsWrite (testTime.Add (24 * Hour))) "x".toList day1.w day1.os
      (by decide) (by decide)).2 openDenied rfl
      (Or.inr ⟨File.file expectedFile1 true, by decide, rfl⟩)⟩

theorem fieldOf_letter (period : Time) (d : Char) (r : GoString)
    (h : fieldOf period d = some r) : d ∈ tokenLetters := by
  unfold fieldOf at h
  split at h
  all_goals first
    | decide
    | cases h

theorem expandTokens_nil (tok : Char → Option GoString) : expandTokens tok [] = [] := rfl

theorem expandTokens_copy (tok : Char → Option GoString) (c : Char) (s : GoString)
    (h : c ≠ '$') : expandTokens tok (c :: s) = c :: expandTokens tok s :=
  expandFrom_copy tok c s (tokenAt_of_ne tok c s h)

theorem expandTokens_token (tok : Char → Option GoString) (k : Char) (r s : GoString)
    (h : tok k = some r) : expandTokens tok ('$' :: k :: s) = r ++ expandTokens tok s :=
  expandFrom_token tok k r s h

theorem expandTokens_dollar (tok : Char → Option GoString) (d : Char) (s : GoString)
    (h : tok d = none) : expandTokens tok ('$' :: d :: s) = '$' :: expandTokens tok (d :: s) :=
  expandFrom_copy tok '$' (d :: s) (by rw [tokenAt_dollar]; exact h)

theorem expandTokens_plain_append (tok : Char → Option GoString) (a s : GoString)
    (h : ∀ c ∈ a, c ≠ '$') : expandTokens tok (a ++ s) = a ++ expandTokens tok s := by
  induction a with
  | nil => rfl
  | cons c a ih =>
    rw [List.cons_append, expandTokens_copy tok c _ (h c (List.mem_cons_self _ _)),
      ih (fun x hx => h x (List.mem_cons_of_mem _ hx)), List.cons_append]

theorem expandTokens_no_token (period : Time) (tpl : GoString)
    (h : ∀ k ∈ tokenLetters, ¬ ['$', k] <:+: tpl) :
    expandTokens (fieldOf period) tpl = tpl := by
  induction tpl with
  | nil => rfl
  | cons c s ih =>
    have hs : ∀ k ∈ tokenLetters, ¬ ['$', k] <:+: s :=
      fun k hk hin => h k hk (List.infix_cons hin)
    have hta : tokenAt (fieldOf period) c s = none := by
      cases hr : tokenAt (fieldOf period) c s with
      | none => rfl
      | some r =>
        obtain ⟨d, rest, hc, hsd, hd⟩ := tokenAt_some _ c s r hr
        subst hc
        subst hsd
        exact absurd (List.prefix_append ['$', d] rest).isInfix
          (h d (fieldOf_letter period d r hd))
    show expandFrom (fieldOf period) 0 (c :: s) = c :: s
    rw [expandFrom_copy _ c s hta]
    exact congrArg (c :: ·) (ih hs)

/-- Claim C13.  For every pattern and every period, the six successive passes
of `updateFilename` give what a single pass over the pattern from left to right
gives: a dollar sign followed by one of `Y`, `M`, `D`, `h`, `m`, `s` is replaced
by its field and the pass goes on after the token, so that the text of a field
is not read again; every other character, a dollar sign before another
character or at the end included, is copied.  A pattern containing none of the
six tokens expands to itself, and `a$$YM$x.log` at 2017-02-03 01:00:00 expands
to `a$2017M$x.log`. -/
theorem six_passes_are_one_pass (w : Writer) (tpl : GoString) (period : Time) :
    (updateFilename { w with filePattern := tpl } period).thisFile
        = Replace (Replace (Replace (Replace (Replace (Replace tpl
            "$Y".toList (sprintf0d 4 period.Year)) "$M".toList (sprintf0d 2 period.Month))
            "$D".toList (sprintf0d 2 period.Day)) "$h".toList (sprintf0d 2 period.Hour))
            "$m".toList (sprintf0d 2 period.Minute)) "$s".toList (sprintf0d 2 period.Second)
      ∧ (updateFilename { w with filePattern := tpl } period).thisFile
        = expandTokens (fieldOf period) tpl
      ∧ expandTokens (fieldOf period) [] = []
      ∧ expandTokens (fieldOf period) ['$'] = ['$']
      ∧ (∀ c s, c ≠ '$' →
          expandTokens (fieldOf period) (c :: s) = c :: expandTokens (fieldOf period) s)
      ∧ (∀ k r s, fieldOf period k = some r →
          expandTokens (fieldOf period) ('$' :: k :: s) = r ++ expandTokens (fieldOf period) s)
      ∧ (∀ d s, fieldOf period d = none →
          expandTokens (fieldOf period) ('$' :: d :: s)
            = '$' :: expandTokens (fieldOf period) (d :: s))
      ∧ ((∀ k ∈ tokenLetters, ¬ ['$', k] <:+: tpl) →
          (updateFilename { w with filePattern := tpl } period).thisFile = tpl)
      ∧ (updateFilename { w with filePattern := "a$$YM$x.log".toList }
          (Date 2017 2 3 1 0 0)).thisFile = "a$2017M$x.log".toList := by
  refine ⟨rfl, updateFilename_thisFile _ _, rfl, expandFrom_single _ _,
    fun c s h => expandTokens_copy _ c s h, fun k r s h => expandTokens_token _ k r s h,
    fun d s h => expandTokens_dollar _ d s h, ?_, ?_⟩
  · intro h
    rw [updateFilename_thisFile]
    exact expandTokens_no_token period tpl h
  · show (updateFilename _ _).thisFile = _
    rw [updateFilename_thisFile]
    show expandTokens (fieldOf (Date 2017 2 3 1 0 0)) "a$$YM$x.log".toList = _
    decide

/-- The pattern of `TestRotate` has tokens; a pattern without a dollar sign has
none and is its own expansion at every period. -/
theorem six_passes_are_one_pass_witness :
    (updateFilename { day1.w with filePattern := "/var/log/app.log".toList } testTime).thisFile
      = "/var/log/app.log".toList :=
  (six_passes_are_one_pass day1.w "/var/log/app.log".toList testTime).2.2.2.2.2.2.2.1
    (by decide)

theorem civil_month_range (days : Int) : 1 ≤ (civil days).2.1 ∧ (civil days).2.1 ≤ 12 := by
  simp only [civil]
  split <;> omega

theorem civil_day_range (days : Int) : 1 ≤ (civil days).2.2 ∧ (civil days).2.2 ≤ 31 := by
  simp only [civil]
  omega

theorem Month_range (t : Time) : 1 ≤ t.Month ∧ t.Month ≤ 12 := civil_month_range _

theorem Day_range (t : Time) : 1 ≤ t.Day ∧ t.Day ≤ 31 := civil_day_range _

theorem Hour_range (t : Time) : 0 ≤ t.Hour ∧ t.Hour ≤ 23 := by
  unfold Time.Hour
  omega

theorem Minute_range (t : Time) : 0 ≤ t.Minute ∧ t.Minute ≤ 59 := by
  unfold Time.Minute
  omega

theorem Second_range (t : Time) : 0 ≤ t.Second ∧ t.Second ≤ 59 := by
  unfold Time.Second
  omega

theorem digitChar_dec (d : Nat) : digitChar d ∈ decChars := by
  unfold digitChar
  split <;> decide

theorem decDigits_of_lt (fuel n : Nat) (hf : 0 < fuel) (h : n < 10) :
    decDigits fuel n = [digitChar n] := by
  obtain ⟨k, rfl⟩ : ∃ k, fuel = k + 1 := ⟨fuel - 1, by omega⟩
  simp [decDigits, h]

theorem decDigits_of_ge (fuel n : Nat) (hf : 0 < fuel) (h : 10 ≤ n) :
    decDigits fuel n = decDigits (fuel - 1) (n / 10) ++ [digitChar (n % 10)] := by
  obtain ⟨k, rfl⟩ : ∃ k, fuel = k + 1 := ⟨fuel - 1, by omega⟩
  have h' : ¬ n < 10 := by omega
  simp [decDigits, h']

theorem padZero_two (m : Nat) (hm : m ≤ 99) :
    padZero 2 (itoa m) = [digitChar (m / 10), digitChar (m % 10)] := by
  unfold itoa padZero
  by_cases h10 : m < 10
  · rw [decDigits_of_lt _ _ (by omega) h10]
    have e1 : m / 10 = 0 := by omega
    have e2 : m % 10 = m := by omega
    rw [e1, e2]
    rfl
  · rw [decDigits_of_ge _ _ (by omega) (by omega), decDigits_of_lt _ _ (by omega) (by omega)]
    rfl

theorem padZero_four (m : Nat) (hm : m ≤ 9999) :
    padZero 4 (itoa m) = [digitChar (m / 1000), digitChar (m / 100 % 10),
      digitChar (m / 10 % 10), digitChar (m % 10)] := by
  unfold itoa padZero
  by_cases h10 : m < 10
  · rw [decDigits_of_lt _ _ (by omega) h10]
    have e1 : m / 1000 = 0 := by omega
    have e2 : m / 100 % 10 = 0 := by omega
    have e3 : m / 10 % 10 = 0 := by omega
    have e4 : m % 10 = m := by omega
    rw [e1, e2, e3, e4]
    rfl
  · by_cases h100 : m < 100
    · rw [decDigits_of_ge _ _ (by omega) (by omega), decDigits_of_lt _ _ (by omega) (by omega)]
      have e1 : m / 1000 = 0 := by omega
      have e2 : m / 100 % 10 = 0 := by omega
      have e3 : m / 10 % 10 = m / 10 := by omega
      rw [e1, e2, e3]
      rfl
    · by_cases h1000 : m < 1000
      · rw [decDigits_of_ge _ _ (by omega) (by omega), decDigits_of_ge _ _ (by omega) (by omega),
          decDigits_of_lt _ _ (by omega) (by omega)]
        have e1 : m / 1000 = 0 := by omega
        have e2 : m / 100 % 10 = m / 10 / 10 := by omega
        rw [e1, e2]
        rfl
      · rw [decDigits_of_ge _ _ (by omega) (by omega), decDigits_of_ge _ _ (by omega) (by omega),
          decDigits_of_ge _ _ (by omega) (by omega), decDigits_of_lt _ _ (by omega) (by omega)]
        have e1 : m / 1000 = m / 10 / 10 / 10 := by omega
        have e2 : m / 100 % 10 = m / 10 / 10 % 10 := by omega
        rw [e1, e2]
        rfl

theorem sprintf0d_two (n : Int) (h0 : 0 ≤ n) (h1 : n ≤ 99) :
    sprintf0d 2 n = [digitChar (n.toNat / 10), digitChar (n.toNat % 10)] := by
  unfold sprintf0d
  rw [if_neg (by omega)]
  exact padZero_two n.toNat (by omega)

theorem sprintf0d_four (n : Int) (h0 : 0 ≤ n) (h1 : n ≤ 9999) :
    sprintf0d 4 n = [digitChar (n.toNat / 1000), digitChar (n.toNat / 100 % 10),
      digitChar (n.toNat / 10 % 10), digitChar (n.toNat % 10)] := by
  unfold sprintf0d
  rw [if_neg (by omega)]
  exact padZero_four n.toNat (by omega)

theorem expand_eq (tpl : GoString) (period : Time) :
    expand tpl period = expandTokens (fieldOf period) tpl :=
  updateFilename_thisFile _ _

theorem fieldOf_width (t : Time) (h0 : 0 ≤ t.Year) (h1 : t.Year ≤ 9999) (k : Char)
    (r : GoString) (h : fieldOf t k = some r) :
    r.length = (if k = 'Y' then 4 else 2) ∧ ∀ c ∈ r, c ∈ decChars := by
  have two : ∀ n : Int, 0 ≤ n → n ≤ 99 →
      (sprintf0d 2 n).length = 2 ∧ ∀ c ∈ sprintf0d 2 n, c ∈ decChars := by
    intro n hn0 hn1
    rw [sprintf0d_two n hn0 hn1]
    refine ⟨rfl, ?_⟩
    intro c hc
    simp only [List.mem_cons, List.mem_singleton, List.not_mem_nil, or_false] at hc
    rcases hc with hc | hc <;> rw [hc] <;> exact digitChar_dec _
  have hM := Month_range t
  have hD := Day_range t
  have hh := Hour_range t
  have hm := Minute_range t
  have hs := Second_range t
  unfold fieldOf at h
  split at h
  · cases h
    rw [sprintf0d_four _ h0 h1]
    refine ⟨rfl, ?_⟩
    intro c hc
    simp only [List.mem_cons, List.mem_singleton, List.not_mem_nil, or_false] at hc
    rcases hc with hc | hc | hc | hc <;> rw [hc] <;> exact digitChar_dec _
  · cases h; exact two _ (by omega) (by omega)
  · cases h; exact two _ (by omega) (by omega)
  · cases h; exact two _ (by omega) (by omega)
  · cases h; exact two _ (by omega) (by omega)
  · cases h; exact two _ (by omega) (by omega)
  · cases h

theorem expandFrom_length_congr (tok1 tok2 : Char → Option GoString)
    (h : ∀ d, (tok1 d).map List.length = (tok2 d).map List.length) :
    ∀ (s : GoString) (k : Nat), (expandFrom tok1 k s).length = (expandFrom tok2 k s).length := by
  intro s
  induction s with
  | nil => intro k; cases k <;> rfl
  | cons c s ih =>
    intro k
    cases k with
    | succ k => exact ih 0
    | zero =>
      have hta : (tokenAt tok1 c s).map List.length = (tokenAt tok2 c s).map List.length := by
        unfold tokenAt
        split
        · cases s with
          | nil => rfl
          | cons d rest => exact h d
        · rfl
      unfold expandFrom
      cases h1 : tokenAt tok1 c s with
      | none =>
        cases h2 : tokenAt tok2 c s with
        | none => simp only [List.length_cons, ih 0]
        | some r2 => rw [h1, h2] at hta; cases hta
      | some r1 =>
        cases h2 : tokenAt tok2 c s with
        | none => rw [h1, h2] at hta; cases hta
        | some r2 =>
          rw [h1, h2] at hta
          have hl : r1.length = r2.length := by simpa using hta
          simp only [List.length_append, hl, ih 1]

/-- Claim C14, amended.  For every period whose year is between 0 and 9999,
`$Y` is replaced by exactly four decimal digits and each of `$M`, `$D`, `$h`,
`$m`, `$s` by exactly two, so that the expansions of one pattern at two such
periods have the same length. -/
theorem field_widths (t : Time) (h0 : 0 ≤ t.Year) (h1 : t.Year ≤ 9999) :
    (∀ k r, fieldOf t k = some r →
        r.length = (if k = 'Y' then 4 else 2) ∧ ∀ c ∈ r, c ∈ decChars)
      ∧ (∀ tpl, expand tpl t = expandTokens (fieldOf t) tpl)
      ∧ ∀ tpl t2, 0 ≤ t2.Year → t2.Year ≤ 9999 →
          (expand tpl t).length = (expand tpl t2).length := by
  refine ⟨fun k r h => fieldOf_width t h0 h1 k r h, fun tpl => expand_eq tpl t, ?_⟩
  intro tpl t2 h20 h21
  rw [expand_eq, expand_eq]
  refine expandFrom_length_congr _ _ ?_ tpl 0
  intro d
  cases e1 : fieldOf t d with
  | none =>
    cases e2 : fieldOf t2 d with
    | none => rfl
    | some r2 =>
      exfalso
      unfold fieldOf at e1 e2
      split at e1 <;> simp_all
  | some r1 =>
    cases e2 : fieldOf t2 d with
    | none =>
      exfalso
      unfold fieldOf at e1 e2
      split at e1 <;> simp_all
    | some r2 =>
      have a := (fieldOf_width t h0 h1 d r1 e1).1
      have b := (fieldOf_width t2 h20 h21 d r2 e2).1
      simp only [Option.map, a, b]

/-- The periods of the two days of `TestRotate`: the year has four digits, the
other fields two, and the two names have the same length. -/
theorem field_widths_witness :
    (sprintf0d 4 testTime.Year = "2017".toList ∧ sprintf0d 2 testTime.Month = "02".toList)
      ∧ (expand testPattern testTime).length
        = (expand testPattern (testTime.Add (24 * Hour))).length := by
  have h := field_widths testTime (by decide) (by decide)
  exact ⟨⟨by decide, by decide⟩,
    h.2.2 testPattern (testTime.Add (24 * Hour)) (by decide) (by decide)⟩

/-- Claim C14 as stated fails.  The period 10000-01-01 00:00:00 has the year
10000, which `%04d` prints with five digits: `$Y` expands to `10000`, one
character longer than its expansion at 2017-02-03 01:00:00. -/
theorem year_10000_has_five_digits :
    (Date 10000 1 1 0 0 0).Year = 10000
      ∧ expand "$Y".toList (Date 10000 1 1 0 0 0) = "10000".toList
      ∧ (expand "$Y".toList (Date 10000 1 1 0 0 0)).length = 5
      ∧ (expand "$Y".toList (Date 2017 2 3 1 0 0)).length = 4 := by
  refine ⟨by decide, by decide, by decide, by decide⟩

/-- Claim C15, at the failing input.  After `Close` on the writer of
`TestRotate`, a `Write` returns the count 0 and `os.ErrClosed`, which is not the
package variable `ErrClosedPipe`. -/
theorem Write_after_Close_returns_os_ErrClosed :
    (∃ c, Close none day1.w day1.os = some c ∧ c.err = none ∧ c.w.closed = true
        ∧ ∀ env p, ∃ r, Write env p c.w c.os = some r ∧ r.n = 0
            ∧ r.err = some Error.ErrClosed ∧ r.err ≠ some Error.ErrClosedPipe) := by
  have hc : Close none day1.w day1.os = some
      { w := { day1.w with closed := true, w := some (File.file expectedFile1 false) }
        os := { files := day1.os.files
                openFiles := day1.os.openFiles.erase expectedFile1
                trace := Event.close expectedFile1 none :: day1.os.trace }
        err := none } := by
    have hw : day1.w.w = some (File.file expectedFile1 true) := by decide
    unfold Close
    simp only [hw, File.Close]
  refine ⟨_, hc, rfl, rfl, ?_⟩
  intro env p
  exact ⟨_, Write_closed env p _ _ rfl, rfl, rfl, by decide⟩

theorem File_Close_fst (f : File) (o : Option Error) (os : World) :
    (f.Close o os).1 = f.closed := by
  cases f with
  | nil => rfl
  | file name isOpen => cases isOpen <;> rfl

/-- The result of a `Write` whose rotation stops at a failing close. -/
theorem Write_close_fail_eq (env : WriteEnv) (p : GoString) (w : Writer) (os : World)
    (f : File) (e : Error) (hclosed : w.closed = false)
    (hafter : env.now.After w.nextRotate = true) (hw : w.w = some f)
    (hc : (f.Close env.rot.closeErr (os.record (Event.now env.now))).2.2 = some e) :
    Write env p w os = some
      { w := { w with w := some f.closed }
        os := (f.Close env.rot.closeErr (os.record (Event.now env.now))).2.1
        n := 0
        err := some e } := by
  rw [Write_rotate env p w os hclosed hafter, rotate_close_fail env.rot w _ f e hw hc,
    File_Close_fst]

/-- Claim C16, amended.  For a `Write` that rotates and in which the close of
the file held in `w` fails with `e`: `Write` returns the count 0 and `e`, no
callback is started, no directory or file is asked for and no path changes,
and the writer is as before the call, `thisFile` and `nextRotate` included,
except that the file held in `w`, still the same file, is now closed if it was
open. -/
theorem Write_close_failure (env : WriteEnv) (p : GoString) (w : Writer) (os : World)
    (f : File) (e : Error) (hclosed : w.closed = false)
    (hafter : env.now.After w.nextRotate = true) (hw : w.w = some f)
    (hc : (f.Close env.rot.closeErr (os.record (Event.now env.now))).2.2 = some e) :
    ∃ r, Write env p w os = some r ∧ r.n = 0 ∧ r.err = some e
      ∧ spawns r.os.trace = spawns os.trace
      ∧ creations r.os.trace = creations os.trace
      ∧ r.os.files = os.files
      ∧ r.w = { w with w := some f.closed }
      ∧ r.w.thisFile = w.thisFile ∧ r.w.nextRotate = w.nextRotate
      ∧ (f.closed = f ↔ ∀ name, f ≠ File.file name true) := by
  refine ⟨_, Write_close_fail_eq env p w os f e hclosed hafter hw hc, rfl, rfl,
    File_Close_spawns _ _ _, File_Close_creations _ _ _, File_Close_files _ _ _, rfl, rfl, rfl,
    ?_⟩
  cases f with
  | nil => simp [File.closed]
  | file name isOpen => cases isOpen <;> simp [File.closed]

/-- The second day of `TestRotate` with a failing close: nothing is started or
created, and the name and the boundary are those of the first day. -/
theorem Write_close_failure_witness :
    ∃ r, Write (closeFailsWrite (testTime.Add (24 * Hour))) "x".toList day1.w day1.os = some r
      ∧ r.n = 0 ∧ r.err = some closeIO
      ∧ spawns r.os.trace = [] ∧ creations r.os.trace = [expectedFile1, expectedFile1]
      ∧ r.w.thisFile = expectedFile1 ∧ r.w.nextRotate = day1.w.nextRotate := by
  obtain ⟨r, h1, h2, h3, h4, h5, -, -, h8, h9, -⟩ :=
    Write_close_failure (closeFailsWrite (testTime.Add (24 * Hour))) "x".toList day1.w day1.os
      (File.file expectedFile1 true) closeIO (by decide) (by decide) (by decide) rfl
  exact ⟨r, h1, h2, h3, h4.trans (by decide), h5.trans (by decide), h8.trans (by decide), h9⟩

/-- Claim C16 as stated fails.  On the second day of `TestRotate`, with the
release of the descriptor of `2017-02-03.txt` reporting an error, the writer
held that file open before the `Write` and holds it closed after it: the next
`Write`, with no failure offered by the system, cannot rotate and fails on the
closed file. -/
theorem Write_close_failure_closes_handle :
    day1.w.w = some (File.file expectedFile1 true)
      ∧ ∃ r, Write (closeFailsWrite (testTime.Add (24 * Hour))) "x".toList day1.w day1.os
            = some r
          ∧ r.err = some closeIO
          ∧ r.w.w = some (File.file expectedFile1 false)
          ∧ r.w.w ≠ day1.w.w
          ∧ (Write (okWrite (testTime.Add (24 * Hour))) "x".toList r.w r.os).map
              (fun r2 => (r2.n, r2.err))
            = some (0, some (Error.PathError "close".toList expectedFile1 Cause.closed)) := by
  refine ⟨by decide, ?_⟩
  have h := Write_close_fail_eq (closeFailsWrite (testTime.Add (24 * Hour))) "x".toList
    day1.w day1.os (File.file expectedFile1 true) closeIO (by decide) (by decide) (by decide) rfl
  refine ⟨_, h, rfl, rfl, by decide, rfl⟩

theorem rotateOpen_trace (env : RotateEnv) (w : Writer) (os : World) :
    (rotateOpen env w os).os.trace
      = Event.openFile (periodName w env.now) env.openErr
        :: Event.mkdirAll (periodName w env.now) env.mkdirErr
        :: Event.now env.now :: os.trace := by
  cases hopen : env.openErr with
  | none => rw [rotateOpen_ok env w os hopen]
  | some e => rw [rotateOpen_fail env w os e hopen]

theorem rotateOpen_Own (env : RotateEnv) (w : Writer) (os : World) :
    Own os.openFiles (rotateOpen env w os).w (rotateOpen env w os).os := by
  cases hopen : env.openErr with
  | none =>
    rw [rotateOpen_ok env w os hopen]
    exact ⟨⟨_, rfl⟩, rfl⟩
  | some e =>
    rw [rotateOpen_fail env w os e hopen]
    exact ⟨⟨_, rfl⟩, rfl⟩

theorem rotateOpen_Own_of (base : List GoString) (env : RotateEnv) (w : Writer) (os : World)
    (h : os.openFiles = base) :
    Own base (rotateOpen env w os).w (rotateOpen env w os).os := by
  have := rotateOpen_Own env w os
  rwa [h] at this

theorem Own_of_eq (base : List GoString) (w w1 : Writer) (os os1 : World)
    (h : Own base w os) (hw : w1.w = w.w) (ho : os1.openFiles = os.openFiles) :
    Own base w1 os1 := by
  obtain ⟨⟨f, hf⟩, h2⟩ := h
  refine ⟨⟨f, hw.trans hf⟩, ?_⟩
  rw [ho, h2]
  unfold ownOpen
  rw [hw]

theorem File_Close_Own (base : List GoString) (w : Writer) (os : World) (f : File)
    (o : Option Error) (hw : w.w = some f) (h : Own base w os) :
    (f.Close o os).2.1.openFiles = base ∧ ownOpen { w with w := some (f.Close o os).1 } = [] := by
  have h2 := h.2
  unfold ownOpen at h2
  rw [hw] at h2
  cases f with
  | nil => exact ⟨by simpa using h2, rfl⟩
  | file name isOpen =>
    cases isOpen with
    | false => exact ⟨by simpa using h2, rfl⟩
    | true =>
      refine ⟨?_, rfl⟩
      show os.openFiles.erase name = base
      rw [h2]
      simp

theorem rotate_Own (base : List GoString) (env : RotateEnv) (w : Writer) (os : World)
    (h : w.w = none ∧ os.openFiles = base ∨ Own base w os) :
    Own base (rotate env w os).w (rotate env w os).os := by
  cases hw : w.w with
  | none =>
    rw [rotate_nil env w os hw]
    rcases h with h | h
    · exact rotateOpen_Own_of base env w os h.2
    · obtain ⟨⟨f, hf⟩, -⟩ := h
      rw [hw] at hf
      cases hf
  | some f =>
    have hown : Own base w os := by
      rcases h with h | h
      · rw [hw] at h; cases h.1
      · exact h
    obtain ⟨h1, h2⟩ := File_Close_Own base w os f env.closeErr hw hown
    cases hc : (f.Close env.closeErr os).2.2 with
    | some e =>
      rw [rotate_close_fail env w os f e hw hc]
      exact ⟨⟨_, rfl⟩, by rw [h1, h2]; rfl⟩
    | none =>
      rw [rotate_close_ok env w os f hw hc]
      cases w.OnRotate with
      | none => exact rotateOpen_Own_of base env _ _ h1
      | some g => exact rotateOpen_Own_of base env _ _ h1

theorem File_Write_openFiles (f : File) (p : GoString) (o : Option (Nat × Error)) (os : World) :
    (f.Write p o os).1.openFiles = os.openFiles := by
  cases f with
  | nil => rfl
  | file name isOpen => cases isOpen <;> rfl

theorem Write_Own (base : List GoString) (env : WriteEnv) (p : GoString) (w : Writer)
    (os : World) (h : Own base w os) :
    ∃ r, Write env p w os = some r ∧ Own base r.w r.os := by
  cases hclosed : w.closed with
  | true => exact ⟨_, Write_closed env p w os hclosed, h⟩
  | false =>
    cases hafter : env.now.After w.nextRotate with
    | false =>
      obtain ⟨f, hf⟩ := h.1
      refine ⟨_, Write_no_rotate env p w os f hclosed hafter hf, ?_⟩
      exact Own_of_eq base w _ os _ h rfl (File_Write_openFiles _ _ _ _)
    | true =>
      have h0 : Own base w (os.record (Event.now env.now)) := Own_of_eq base w w os _ h rfl rfl
      have hr := rotate_Own base env.rot w (os.record (Event.now env.now)) (Or.inr h0)
      rw [Write_rotate env p w os hclosed hafter]
      cases he : (rotate env.rot w (os.record (Event.now env.now))).err with
      | some e => exact ⟨_, rfl, hr⟩
      | none =>
        obtain ⟨f, hf⟩ := hr.1
        simp only [hf]
        exact ⟨_, rfl, Own_of_eq base _ _ _ _ hr rfl (File_Write_openFiles _ _ _ _)⟩

theorem Close_Own (base : List GoString) (closeErr : Option Error) (w : Writer) (os : World)
    (h : Own base w os) :
    ∃ r, Close closeErr w os = some r ∧ Own base r.w r.os := by
  obtain ⟨f, hf⟩ := h.1
  obtain ⟨h1, h2⟩ := File_Close_Own base w os f closeErr hf h
  unfold Close
  simp only [hf]
  refine ⟨_, rfl, ⟨_, rfl⟩, ?_⟩
  have h3 : ownOpen { w with closed := true, w := some (f.Close closeErr os).1 } = [] := h2
  rw [h3, h1]
  rfl

theorem run_Own (base : List GoString) (ops : List Op) :
    ∀ (w : Writer) (os : World), Own base w os →
      ∃ w1 os1, run ops w os = some (w1, os1) ∧ Own base w1 os1 := by
  induction ops with
  | nil => intro w os h; exact ⟨w, os, rfl, h⟩
  | cons op ops ih =>
    intro w os h
    cases op with
    | write env p =>
      obtain ⟨r, h1, h2⟩ := Write_Own base env p w os h
      obtain ⟨w1, os1, h3, h4⟩ := ih r.w r.os h2
      exact ⟨w1, os1, by simp only [run, step, h1, Option.map]; exact h3, h4⟩
    | close closeErr =>
      obtain ⟨r, h1, h2⟩ := Close_Own base closeErr w os h
      obtain ⟨w1, os1, h3, h4⟩ := ih r.w r.os h2
      exact ⟨w1, os1, by simp only [run, step, h1, Option.map]; exact h3, h4⟩

theorem NewWriter_Own (env : RotateEnv) (pattern : GoString) (period : Duration)
    (onRotate : Option RotationFunction) (os : World) :
    Own os.openFiles (NewWriter env pattern period onRotate os).w
      (NewWriter env pattern period onRotate os).os := by
  unfold NewWriter
  exact rotate_Own os.openFiles env _ os (Or.inl ⟨rfl, rfl⟩)

theorem ownOpen_length (w : Writer) : (ownOpen w).length ≤ 1 := by
  unfold ownOpen
  split <;> simp

/-- Claim C17.  In every state reached from a construction by `Write` and
`Close` calls, the descriptors open in the system are those that were open
before the construction and at most one more, the one of the file that the
writer holds open.  In a rotation of a writer that holds a file, nothing is
created or opened when the close of that file fails; and when it succeeds, the
file was open, its descriptor is released first, and the calls of the rotation
come in the order: close of the previous file, start of the callback if there
is one, reading of the clock, `os.MkdirAll`, `os.OpenFile`. -/
theorem one_descriptor_at_a_time (cenv : RotateEnv) (pattern : GoString) (period : Duration)
    (onRotate : Option RotationFunction) (os0 : World) (ops : List Op) :
    (∃ w os,
        run ops (NewWriter cenv pattern period onRotate os0).w
          (NewWriter cenv pattern period onRotate os0).os = some (w, os)
        ∧ os.openFiles = ownOpen w ++ os0.openFiles ∧ (ownOpen w).length ≤ 1)
    ∧ ∀ (env : RotateEnv) (w : Writer) (os : World) (f : File), w.w = some f →
        (∀ e, (f.Close env.closeErr os).2.2 = some e →
          (rotate env w os).err = some e
          ∧ creations (rotate env w os).os.trace = creations os.trace)
        ∧ ((f.Close env.closeErr os).2.2 = none →
          ∃ prev, f = File.file prev true
            ∧ (rotate env w os).os.trace
              = Event.openFile (periodName w env.now) env.openErr
                :: Event.mkdirAll (periodName w env.now) env.mkdirErr
                :: Event.now env.now :: (closeEvents w prev ++ os.trace)
            ∧ (rotate env w os).os.openFiles
              = ownOpen (rotate env w os).w ++ os.openFiles.erase prev) := by
  constructor
  · obtain ⟨w, os, h1, h2⟩ := run_Own os0.openFiles ops _ _
      (NewWriter_Own cenv pattern period onRotate os0)
    exact ⟨w, os, h1, h2.2, ownOpen_length w⟩
  · intro env w os f hw
    constructor
    · intro e hc
      rw [rotate_close_fail env w os f e hw hc]
      exact ⟨rfl, File_Close_creations _ _ _⟩
    · intro hc
      cases f with
      | nil => cases hc
      | file prev isOpen =>
        cases isOpen with
        | false => cases hc
        | true =>
          have hclose : env.closeErr = none := hc
          refine ⟨prev, rfl, ?_, ?_⟩
          · rw [rotate_open_handle env w os prev hw hclose, rotateOpen_trace]
            rfl
          · rw [rotate_open_handle env w os prev hw hclose]
            exact (rotateOpen_Own env _ _).2

theorem rotateOpen_fields (env : RotateEnv) (w : Writer) (os : World) :
    (rotateOpen env w os).w.nextRotate = (env.now.Truncate w.period).Add w.period
      ∧ (rotateOpen env w os).w.period = w.period
      ∧ (rotateOpen env w os).w.closed = w.closed
      ∧ (∃ f, (rotateOpen env w os).w.w = some f)
      ∧ rotations (rotateOpen env w os).os.trace = rotations os.trace + 1 := by
  refine ⟨?_, ?_, ?_, ?_, ?_⟩
  · cases hopen : env.openErr with
    | none => rw [rotateOpen_ok env w os hopen]
    | some e => rw [rotateOpen_fail env w os e hopen]
  · cases hopen : env.openErr with
    | none => rw [rotateOpen_ok env w os hopen]
    | some e => rw [rotateOpen_fail env w os e hopen]
  · cases hopen : env.openErr with
    | none => rw [rotateOpen_ok env w os hopen]
    | some e => rw [rotateOpen_fail env w os e hopen]
  · cases hopen : env.openErr with
    | none => rw [rotateOpen_ok env w os hopen]; exact ⟨_, rfl⟩
    | some e => rw [rotateOpen_fail env w os e hopen]; exact ⟨_, rfl⟩
  · rw [rotateOpen_trace]
    simp [rotations]

theorem File_Close_rotations (f : File) (o : Option Error) (os : World) :
    rotations (f.Close o os).2.1.trace = rotations os.trace := by
  cases f with
  | nil => rfl
  | file name isOpen => cases isOpen <;> rfl

theorem File_Write_rotations (f : File) (p : GoString) (o : Option (Nat × Error)) (os : World) :
    rotations (f.Write p o os).1.trace = rotations os.trace := by
  cases f with
  | nil => rfl
  | file name isOpen => cases isOpen <;> rfl

theorem After_false_iff (t u : Time) : t.After u = false ↔ t.ns ≤ u.ns := by
  simp [Time.After]

/-- A rotation that is not stopped by a failing close is the second half of
`rotate` on a writer with the same period and the same closed flag, after
calls that are not rotations. -/
theorem rotate_performed (env : RotateEnv) (w : Writer) (os : World)
    (h : ∀ f, w.w = some f → (f.Close env.closeErr os).2.2 = none) :
    ∃ w1 os1, rotate env w os = rotateOpen env w1 os1 ∧ w1.period = w.period
      ∧ w1.closed = w.closed ∧ rotations os1.trace = rotations os.trace := by
  cases hw : w.w with
  | none => exact ⟨w, os, rotate_nil env w os hw, rfl, rfl, rfl⟩
  | some f =>
    refine ⟨_, _, rotate_close_ok env w os f hw (h f hw), rfl, rfl, ?_⟩
    cases w.OnRotate with
    | none => exact File_Close_rotations _ _ _
    | some g =>
      show rotations (Event.spawn g w.thisFile :: (f.Close env.closeErr os).2.1.trace) = _
      simp only [rotations]
      exact File_Close_rotations _ _ _

/-- A `Write` on a closed writer, or at a reading that is not after the
boundary, leaves the writer as it is and makes no rotation. -/
theorem Write_stable (env : WriteEnv) (p : GoString) (w : Writer) (os : World) (f : File)
    (hw : w.w = some f) (h : w.closed = true ∨ env.now.ns ≤ w.nextRotate.ns) :
    ∃ r, Write env p w os = some r ∧ r.w = w
      ∧ rotations r.os.trace = rotations os.trace := by
  cases hclosed : w.closed with
  | true => exact ⟨_, Write_closed env p w os hclosed, rfl, rfl⟩
  | false =>
    have hafter : env.now.After w.nextRotate = false := by
      rcases h with h | h
      · rw [hclosed] at h; cases h
      · exact (After_false_iff _ _).2 h
    refine ⟨_, Write_no_rotate env p w os f hclosed hafter hw, rfl, ?_⟩
    simp only [File_Write_rotations]
    simp [World.record, rotations]

/-- A `Write` whose rotation, if there is one, reads the clock at `t`, on a
writer with a positive period: it makes no rotation, or it makes one and the
boundary is then not before `t`. -/
theorem Write_step (t : Time) (env : WriteEnv) (p : GoString) (w : Writer) (os : World)
    (f : File) (hw : w.w = some f) (hp : 0 < w.period) (h2 : env.rot.now.ns = t.ns) :
    ∃ r, Write env p w os = some r ∧ (∃ g, r.w.w = some g) ∧ r.w.period = w.period
      ∧ (rotations r.os.trace = rotations os.trace
        ∨ rotations r.os.trace = rotations os.trace + 1 ∧ t.ns ≤ r.w.nextRotate.ns) := by
  by_cases hst : w.closed = true ∨ env.now.ns ≤ w.nextRotate.ns
  · obtain ⟨r, e1, e2, e3⟩ := Write_stable env p w os f hw hst
    exact ⟨r, e1, ⟨f, by rw [e2]; exact hw⟩, by rw [e2], Or.inl e3⟩
  · have hclosed : w.closed = false := by
      cases hc : w.closed with
      | true => exact absurd (Or.inl hc) hst
      | false => rfl
    have hafter : env.now.After w.nextRotate = true := by
      cases ha : env.now.After w.nextRotate with
      | true => rfl
      | false => exact absurd (Or.inr ((After_false_iff _ _).1 ha)) hst
    have hrec : rotations (os.record (Event.now env.now)).trace = rotations os.trace := by
      simp [World.record, rotations]
    rw [Write_rotate env p w os hclosed hafter]
    cases hc : (f.Close env.rot.closeErr (os.record (Event.now env.now))).2.2 with
    | some e =>
      rw [rotate_close_fail env.rot w _ f e hw hc]
      exact ⟨_, rfl, ⟨_, rfl⟩, rfl, Or.inl ((File_Close_rotations _ _ _).trans hrec)⟩
    | none =>
      obtain ⟨w1, os1, e1, e2, -, e4⟩ := rotate_performed env.rot w
        (os.record (Event.now env.now)) (fun g hg => by
          rw [hw] at hg
          cases hg
          exact hc)
      obtain ⟨f1, f2, -, ⟨g, f4⟩, f5⟩ := rotateOpen_fields env.rot w1 os1
      have hb := Truncate_bounds env.rot.now w1.period (by rw [e2]; exact hp)
      have hnext : t.ns ≤ (rotateOpen env.rot w1 os1).w.nextRotate.ns := by
        rw [f1]
        simp only [Time.Add]
        omega
      rw [e1]
      cases he : (rotateOpen env.rot w1 os1).err with
      | some e =>
        exact ⟨_, rfl, ⟨g, f4⟩, f2.trans e2, Or.inr ⟨by rw [f5, e4, hrec], hnext⟩⟩
      | none =>
        simp only [f4]
        refine ⟨_, rfl, ⟨g, f4⟩, f2.trans e2, Or.inr ⟨?_, hnext⟩⟩
        simp only [File_Write_rotations, f5, e4, hrec]

theorem run_stable (t : Time) (ws : List (WriteEnv × GoString)) :
    ∀ (w : Writer) (os : World), (∃ f, w.w = some f) →
      (w.closed = true ∨ t.ns ≤ w.nextRotate.ns) →
      (∀ x ∈ ws, x.1.now.ns = t.ns ∧ x.1.rot.now.ns = t.ns) →
      ∃ w1 os1, run (writeOps ws) w os = some (w1, os1)
        ∧ rotations os1.trace = rotations os.trace := by
  induction ws with
  | nil => intro w os _ _ _; exact ⟨w, os, rfl, rfl⟩
  | cons x ws ih =>
    intro w os hf hst hx
    obtain ⟨f, hw⟩ := hf
    have hx0 := hx x (List.mem_cons_self _ _)
    obtain ⟨r, e1, e2, e3⟩ := Write_stable x.1 x.2 w os f hw (by rw [hx0.1]; exact hst)
    obtain ⟨w1, os1, g1, g2⟩ := ih r.w r.os ⟨f, by rw [e2]; exact hw⟩ (by rw [e2]; exact hst)
      (fun y hy => hx y (List.mem_cons_of_mem _ hy))
    refine ⟨w1, os1, ?_, g2.trans e3⟩
    simp only [writeOps, List.map_cons, run, step, e1, Option.map]
    exact g1

theorem run_one_rotation (t : Time) (ws : List (WriteEnv × GoString)) :
    ∀ (w : Writer) (os : World), (∃ f, w.w = some f) → 0 < w.period →
      (∀ x ∈ ws, x.1.now.ns = t.ns ∧ x.1.rot.now.ns = t.ns) →
      ∃ w1 os1, run (writeOps ws) w os = some (w1, os1)
        ∧ rotations os1.trace ≤ rotations os.trace + 1 := by
  induction ws with
  | nil => intro w os _ _ _; exact ⟨w, os, rfl, Nat.le_succ _⟩
  | cons x ws ih =>
    intro w os hf hp hx
    obtain ⟨f, hw⟩ := hf
    have hx0 := hx x (List.mem_cons_self _ _)
    have hxs : ∀ y ∈ ws, y.1.now.ns = t.ns ∧ y.1.rot.now.ns = t.ns :=
      fun y hy => hx y (List.mem_cons_of_mem _ hy)
    obtain ⟨r, e1, e2, e3, e4⟩ := Write_step t x.1 x.2 w os f hw hp hx0.2
    have hrun : ∀ w1 os1, run (writeOps ws) r.w r.os = some (w1, os1) →
        run (writeOps (x :: ws)) w os = some (w1, os1) := by
      intro w1 os1 h
      simp only [writeOps, List.map_cons, run, step, e1, Option.map]
      exact h
    rcases e4 with e4 | ⟨e4, e5⟩
    · obtain ⟨w1, os1, g1, g2⟩ := ih r.w r.os e2 (by rw [e3]; exact hp) hxs
      exact ⟨w1, os1, hrun w1 os1 g1, by omega⟩
    · obtain ⟨w1, os1, g1, g2⟩ := run_stable t ws r.w r.os e2 (Or.inr e5) hxs
      exact ⟨w1, os1, hrun w1 os1 g1, by omega⟩

/-- Claim C18.  Let `t` be a reading of the clock.  A rotation at `t` of a
writer with a positive period that is not stopped by a failing close starts
the period at `T`, the reading truncated, with `T <= t < T + period`, and sets
`nextRotate` to `T + period`; a `Write` issued next at the reading `t` leaves
the writer as it is and makes no rotation.  Any sequence of `Write` calls in
which every reading of the clock is `t` runs without a panic and makes at most
one rotation. -/
theorem one_rotation_per_reading (t : Time) :
    (∀ (env : RotateEnv) (w : Writer) (os : World), env.now.ns = t.ns → 0 < w.period →
        (∀ f, w.w = some f → (f.Close env.closeErr os).2.2 = none) →
        (env.now.Truncate w.period).ns ≤ t.ns
        ∧ t.ns < (env.now.Truncate w.period).ns + w.period
        ∧ (rotate env w os).w.nextRotate = (env.now.Truncate w.period).Add w.period
        ∧ (rotate env w os).w.nextRotate.ns = (env.now.Truncate w.period).ns + w.period
        ∧ rotations (rotate env w os).os.trace = rotations os.trace + 1
        ∧ ∀ (wenv : WriteEnv) (p : GoString), wenv.now.ns = t.ns →
            wenv.now.After (rotate env w os).w.nextRotate = false
            ∧ ∃ r, Write wenv p (rotate env w os).w (rotate env w os).os = some r
              ∧ r.w = (rotate env w os).w
              ∧ rotations r.os.trace = rotations (rotate env w os).os.trace)
    ∧ ∀ (w : Writer) (os : World) (ws : List (WriteEnv × GoString)), 0 < w.period →
        (∃ f, w.w = some f) →
        (∀ x ∈ ws, x.1.now.ns = t.ns ∧ x.1.rot.now.ns = t.ns) →
        ∃ w1 os1, run (writeOps ws) w os = some (w1, os1)
          ∧ rotations os1.trace ≤ rotations os.trace + 1 := by
  constructor
  · intro env w os ht hp hclose
    obtain ⟨w1, os1, e1, e2, -, e4⟩ := rotate_performed env w os hclose
    obtain ⟨f1, -, -, ⟨g, f4⟩, f5⟩ := rotateOpen_fields env w1 os1
    have hb := Truncate_bounds env.now w.period hp
    have hns : (rotate env w os).w.nextRotate.ns = (env.now.Truncate w.period).ns + w.period := by
      rw [e1, f1, e2]
      rfl
    refine ⟨by omega, by omega, by rw [e1, f1, e2], hns, by rw [e1, f5, e4], ?_⟩
    intro wenv p hw
    have hle : wenv.now.ns ≤ (rotate env w os).w.nextRotate.ns := by omega
    refine ⟨(After_false_iff _ _).2 hle, ?_⟩
    exact Write_stable wenv p _ _ g (by rw [e1]; exact f4) (Or.inr hle)
  · intro w os ws hp hf hx
    exact run_one_rotation t ws w os hf hp hx

/-- The second day of `TestRotate`: three writes while the clock stands one day
after the start add one rotation to that of the construction. -/
theorem one_rotation_per_reading_witness :
    rotations day1.os.trace = 1
      ∧ ∃ w1 os1,
          run (writeOps [(okWrite (testTime.Add (24 * Hour)), "a".toList),
              (okWrite (testTime.Add (24 * Hour)), "b".toList),
              (okWrite (testTime.Add (24 * Hour)), "c".toList)]) day1.w day1.os
            = some (w1, os1)
          ∧ rotations os1.trace ≤ rotations day1.os.trace + 1 :=
  ⟨by decide,
   (one_rotation_per_reading (testTime.Add (24 * Hour))).2 day1.w day1.os _ (by decide)
     ⟨File.file expectedFile1 true, by decide⟩
     (by
       intro x hx
       simp only [List.mem_cons, List.mem_singleton, List.not_mem_nil, or_false] at hx
       rcases hx with h | h | h <;> rw [h] <;> exact ⟨rfl, rfl⟩)⟩

/-- A `Write` that rotates, the rotation not being stopped by a failing close:
the writer returned is the one `rotate` leaves, and one rotation is made. -/
theorem Write_performed (env : WriteEnv) (p : GoString) (w : Writer) (os : World)
    (hclosed : w.closed = false) (hafter : env.now.After w.nextRotate = true)
    (hclose : ∀ f, w.w = some f →
      (f.Close env.rot.closeErr (os.record (Event.now env.now))).2.2 = none) :
    ∃ r, Write env p w os = some r
      ∧ r.w.nextRotate = (env.rot.now.Truncate w.period).Add w.period
      ∧ r.w.period = w.period
      ∧ rotations r.os.trace = rotations os.trace + 1 := by
  have hrec : rotations (os.record (Event.now env.now)).trace = rotations os.trace := by
    simp [World.record, rotations]
  obtain ⟨w1, os1, e1, e2, -, e4⟩ := rotate_performed env.rot w
    (os.record (Event.now env.now)) hclose
  obtain ⟨f1, f2, -, ⟨g, f4⟩, f5⟩ := rotateOpen_fields env.rot w1 os1
  rw [Write_rotate env p w os hclosed hafter, e1]
  cases he : (rotateOpen env.rot w1 os1).err with
  | some e => exact ⟨_, rfl, by rw [f1, e2], f2.trans e2, by rw [f5, e4, hrec]⟩
  | none =>
    simp only [f4]
    refine ⟨_, rfl, by rw [f1, e2], f2.trans e2, ?_⟩
    simp only [File_Write_rotations, f5, e4, hrec]

/-- Truncation does not go below a multiple of the period that the time has
reached. -/
theorem Truncate_ge_multiple (t : Time) (d : Duration) (b : Int) (hd : 0 < d) (hb : d ∣ b)
    (h : b ≤ t.ns) : b ≤ (t.Truncate d).ns := by
  obtain ⟨k, rfl⟩ := hb
  unfold Time.Truncate
  rw [if_neg (not_le.2 hd)]
  simp only [Time.Add]
  have h1 : k ≤ t.ns / d := Int.le_ediv_of_mul_le hd (by rw [mul_comm]; exact h)
  have h2 : d * k ≤ d * (t.ns / d) := mul_le_mul_of_nonneg_left h1 (le_of_lt hd)
  have h3 := Int.ediv_add_emod t.ns d
  linarith

/-- Claim C19, amended.  In every state reached from a construction with a
positive period by `Write` and `Close` calls, `nextRotate` is a multiple of the
period, and a `Write` that rotates, the rotation not being stopped by a failing
close and reading the clock not earlier than `Write` did, starts the new period
at or after the old `nextRotate` and sets `nextRotate` one period later, so
strictly after its old value: the periods of the files opened one after the
other are disjoint and increasing, however the clock moved between the
calls. -/
theorem boundaries_increase (cenv : RotateEnv) (pattern : GoString) (period : Duration)
    (onRotate : Option RotationFunction) (os0 : World) (ops : List Op) (hp : 0 < period) :
    ∃ w os,
      run ops (NewWriter cenv pattern period onRotate os0).w
          (NewWriter cenv pattern period onRotate os0).os = some (w, os)
      ∧ period ∣ w.nextRotate.ns
      ∧ ∀ (env : WriteEnv) (p : GoString), w.closed = false →
          env.now.After w.nextRotate = true → env.now.ns ≤ env.rot.now.ns →
          (∀ f, w.w = some f →
            (f.Close env.rot.closeErr (os.record (Event.now env.now))).2.2 = none) →
          ∃ r, Write env p w os = some r
            ∧ rotations r.os.trace = rotations os.trace + 1
            ∧ w.nextRotate.ns ≤ (env.rot.now.Truncate period).ns
            ∧ r.w.nextRotate.ns = (env.rot.now.Truncate period).ns + period
            ∧ w.nextRotate.ns < r.w.nextRotate.ns := by
  obtain ⟨w, os, hrun, hinv⟩ := run_Inv pattern period ops _ _
    (NewWriter_Inv cenv pattern period onRotate os0)
  obtain ⟨-, hper, -, t0, -, -, hnext⟩ := hinv
  have hdvd : period ∣ w.nextRotate.ns := by
    rw [hnext]
    exact dvd_add (Truncate_bounds t0 period hp).1 (dvd_refl _)
  refine ⟨w, os, hrun, hdvd, ?_⟩
  intro env p hclosed hafter hmono hclose
  obtain ⟨r, e1, e2, -, e4⟩ := Write_performed env p w os hclosed hafter hclose
  have hlt : w.nextRotate.ns < env.now.ns := by simpa [Time.After] using hafter
  have hge := Truncate_ge_multiple env.rot.now period w.nextRotate.ns hp hdvd (by omega)
  have hns : r.w.nextRotate.ns = (env.rot.now.Truncate period).ns + period := by
    rw [e2, hper]
    rfl
  have hp0 : (0 : Int) < period := hp
  exact ⟨r, e1, e4, hge, hns, by omega⟩

/-- The second day of `TestRotate`, after one line written on the first day:
the writer is not closed, the clock one day later is after the boundary
2017-02-04 00:00:00, `rotate` reads the same clock and the close succeeds; the
`Write` makes one rotation, the new period starts at the old boundary, and the
boundary moves to 2017-02-05 00:00:00. -/
theorem boundaries_increase_witness :
    ∃ w os r,
      run [Op.write (okWrite testTime) "First Day, First Line\n".toList] day1.w day1.os
        = some (w, os)
      ∧ w.closed = false
      ∧ (okWrite (testTime.Add (24 * Hour))).now.After w.nextRotate = true
      ∧ w.w = some (File.file expectedFile1 true)
      ∧ Write (okWrite (testTime.Add (24 * Hour))) "Second Day, First Line\n".toList w os
        = some r
      ∧ rotations r.os.trace = rotations os.trace + 1
      ∧ w.nextRotate.ns = (Date 2017 2 4 0 0 0).ns
      ∧ ((okWrite (testTime.Add (24 * Hour))).rot.now.Truncate (24 * Hour)).ns
        = (Date 2017 2 4 0 0 0).ns
      ∧ r.w.nextRotate.ns = (Date 2017 2 5 0 0 0).ns
      ∧ w.nextRotate.ns < r.w.nextRotate.ns := by
  obtain ⟨w, os, hrun, -, h⟩ :=
    boundaries_increase (okRotate testTime) testPattern (24 * Hour) (some 7) emptyWorld
      [Op.write (okWrite testTime) "First Day, First Line\n".toList] (by decide)
  have hrun0 := hrun
  have hcomp := Write_append (okWrite testTime) "First Day, First Line\n".toList day1.w day1.os
    expectedFile1 (by decide) (by decide) (by decide) rfl
  have hrun1 : run [Op.write (okWrite testTime) "First Day, First Line\n".toList]
      day1.w day1.os = some (w, os) := hrun
  simp only [run, step, hcomp, Option.map] at hrun1
  have hw : day1.w = w := congrArg Prod.fst (Option.some.inj hrun1)
  have hclosed : w.closed = false := by rw [← hw]; decide
  have hafter : (okWrite (testTime.Add (24 * Hour))).now.After w.nextRotate = true := by
    rw [← hw]; decide
  have hfile : w.w = some (File.file expectedFile1 true) := by rw [← hw]; decide
  have hnext : w.nextRotate.ns = (Date 2017 2 4 0 0 0).ns := by rw [← hw]; decide
  have htr : ((okWrite (testTime.Add (24 * Hour))).rot.now.Truncate (24 * Hour)).ns
      = (Date 2017 2 4 0 0 0).ns := by decide
  obtain ⟨r, h1, h2, -, h4, h5⟩ :=
    h (okWrite (testTime.Add (24 * Hour))) "Second Day, First Line\n".toList hclosed hafter
      (le_refl _)
      (by
        intro f hf
        rw [hfile] at hf
        cases hf
        rfl)
  refine ⟨w, os, r, hrun0, hclosed, hafter, hfile, h1, h2, hnext, htr, ?_, h5⟩
  rw [h4, htr]
  decide

/-- Claim C19 as stated fails.  The writer of `TestRotate` has a period of 24
hours and its boundary at 2017-02-04 00:00:00.  In a `Write` that reads
2017-02-04 00:00:01 the rotation is triggered; the clock is then set back and
`rotate` reads 2017-02-03 23:59:59.  Every call succeeds and the rotation is
made, but the new period starts before the old boundary, `nextRotate` is what
it was, and the file opened is again `2017-02-03.txt`. -/
theorem rotation_with_clock_set_back :
    0 < day1.w.period
      ∧ steppedBack.now.After day1.w.nextRotate = true
      ∧ (steppedBack.rot.now.Truncate day1.w.period).ns < day1.w.nextRotate.ns
      ∧ ∃ r, Write steppedBack "x".toList day1.w day1.os = some r
          ∧ r.err = none
          ∧ rotations r.os.trace = rotations day1.os.trace + 1
          ∧ r.w.nextRotate.ns = day1.w.nextRotate.ns
          ∧ r.w.thisFile = day1.w.thisFile := by
  refine ⟨by decide, by decide, by decide, ?_⟩
  have h := Write_rotate_ok steppedBack "x".toList day1.w day1.os expectedFile1
    (by decide) (by decide) (by decide) rfl rfl rfl
  refine ⟨_, h, rfl, ?_, by decide, by decide⟩
  have e : closeEvents day1.w expectedFile1
      = [Event.spawn 7 day1.w.thisFile, Event.close expectedFile1 none] := rfl
  simp only [e]
  simp [rotations]

theorem digitVal_digitChar (a : Nat) (h : a < 10) : digitVal (digitChar a) = a := by
  interval_cases a <;> rfl

theorem digitChar_inj (a b : Nat) (ha : a < 10) (hb : b < 10)
    (h : digitChar a = digitChar b) : a = b := by
  have := congrArg digitVal h
  rwa [digitVal_digitChar a ha, digitVal_digitChar b hb] at this

theorem sprintf0d_two_inj (a b : Int) (ha0 : 0 ≤ a) (ha1 : a ≤ 99) (hb0 : 0 ≤ b) (hb1 : b ≤ 99)
    (h : sprintf0d 2 a = sprintf0d 2 b) : a = b := by
  rw [sprintf0d_two a ha0 ha1, sprintf0d_two b hb0 hb1] at h
  simp only [List.cons.injEq, and_true] at h
  have h1 := digitChar_inj _ _ (by omega) (by omega) h.1
  have h2 := digitChar_inj _ _ (by omega) (by omega) h.2
  omega

theorem sprintf0d_four_inj (a b : Int) (ha0 : 0 ≤ a) (ha1 : a ≤ 9999) (hb0 : 0 ≤ b)
    (hb1 : b ≤ 9999) (h : sprintf0d 4 a = sprintf0d 4 b) : a = b := by
  rw [sprintf0d_four a ha0 ha1, sprintf0d_four b hb0 hb1] at h
  simp only [List.cons.injEq, and_true] at h
  have h1 := digitChar_inj _ _ (by omega) (by omega) h.1
  have h2 := digitChar_inj _ _ (by omega) (by omega) h.2.1
  have h3 := digitChar_inj _ _ (by omega) (by omega) h.2.2.1
  have h4 := digitChar_inj _ _ (by omega) (by omega) h.2.2.2
  omega

theorem sprintf0d_two_length (a : Int) (ha0 : 0 ≤ a) (ha1 : a ≤ 99) :
    (sprintf0d 2 a).length = 2 := by
  rw [sprintf0d_two a ha0 ha1]
  rfl

theorem sprintf0d_four_length (a : Int) (ha0 : 0 ≤ a) (ha1 : a ≤ 9999) :
    (sprintf0d 4 a).length = 4 := by
  rw [sprintf0d_four a ha0 ha1]
  rfl

/-- The expansion of the six placeholders between two texts without a dollar
sign. -/
theorem expand_stamp (pre post : GoString) (t : Time) (hpre : ∀ c ∈ pre, c ≠ '$')
    (hpost : ∀ c ∈ post, c ≠ '$') :
    expand (pre ++ stampPattern ++ post) t = pre ++ stamp t ++ post := by
  have hp : expandTokens (fieldOf t) post = post := by
    have := expandTokens_plain_append (fieldOf t) post [] hpost
    rwa [List.append_nil, expandTokens_nil, List.append_nil] at this
  rw [expand_eq, List.append_assoc, expandTokens_plain_append _ pre _ hpre]
  show pre ++ expandTokens (fieldOf t)
    ('$' :: 'Y' :: '$' :: 'M' :: '$' :: 'D' :: '$' :: 'h' :: '$' :: 'm' :: '$' :: 's' :: post) = _
  rw [expandTokens_token _ 'Y' _ _ rfl, expandTokens_token _ 'M' _ _ rfl,
    expandTokens_token _ 'D' _ _ rfl, expandTokens_token _ 'h' _ _ rfl,
    expandTokens_token _ 'm' _ _ rfl, expandTokens_token _ 's' _ _ rfl, hp]
  simp only [stamp, List.append_assoc]

theorem stamp_inj (t1 t2 : Time) (h10 : 0 ≤ t1.Year) (h11 : t1.Year ≤ 9999)
    (h20 : 0 ≤ t2.Year) (h21 : t2.Year ≤ 9999) (h : stamp t1 = stamp t2) :
    t1.Year = t2.Year ∧ t1.Month = t2.Month ∧ t1.Day = t2.Day
      ∧ t1.Hour = t2.Hour ∧ t1.Minute = t2.Minute ∧ t1.Second = t2.Second := by
  have hM1 := Month_range t1
  have hM2 := Month_range t2
  have hD1 := Day_range t1
  have hD2 := Day_range t2
  have hh1 := Hour_range t1
  have hh2 := Hour_range t2
  have hm1 := Minute_range t1
  have hm2 := Minute_range t2
  have hs1 := Second_range t1
  have hs2 := Second_range t2
  unfold stamp at h
  simp only [List.append_assoc] at h
  have lY := (sprintf0d_four_length _ h10 h11).trans (sprintf0d_four_length _ h20 h21).symm
  obtain ⟨eY, h⟩ := List.append_inj h lY
  have lM := (sprintf0d_two_length t1.Month (by omega) (by omega)).trans
    (sprintf0d_two_length t2.Month (by omega) (by omega)).symm
  obtain ⟨eM, h⟩ := List.append_inj h lM
  have lD := (sprintf0d_two_length t1.Day (by omega) (by omega)).trans
    (sprintf0d_two_length t2.Day (by omega) (by omega)).symm
  obtain ⟨eD, h⟩ := List.append_inj h lD
  have lh := (sprintf0d_two_length t1.Hour (by omega) (by omega)).trans
    (sprintf0d_two_length t2.Hour (by omega) (by omega)).symm
  obtain ⟨eh, h⟩ := List.append_inj h lh
  have lm := (sprintf0d_two_length t1.Minute (by omega) (by omega)).trans
    (sprintf0d_two_length t2.Minute (by omega) (by omega)).symm
  obtain ⟨em, es⟩ := List.append_inj h lm
  exact ⟨sprintf0d_four_inj _ _ h10 h11 h20 h21 eY,
    sprintf0d_two_inj _ _ (by omega) (by omega) (by omega) (by omega) eM,
    sprintf0d_two_inj _ _ (by omega) (by omega) (by omega) (by omega) eD,
    sprintf0d_two_inj _ _ (by omega) (by omega) (by omega) (by omega) eh,
    sprintf0d_two_inj _ _ (by omega) (by omega) (by omega) (by omega) em,
    sprintf0d_two_inj _ _ (by omega) (by omega) (by omega) (by omega) es⟩

/-- Claim C20, amended.  For the pattern `$Y$M$D$h$m$s` between two fixed texts
without a dollar sign (both may be empty), and for two period starts with years
from 0 to 9999, the expansions are the two texts around the fourteen digits of
the fields, and they are equal exactly when the two period starts have the same
year, month, day, hour, minute and second: the expansion is injective in these
six fields, and periods whose starts differ in one of them never share a
file. -/
theorem stamped_names_injective (pre post : GoString) (t1 t2 : Time)
    (hpre : ∀ c ∈ pre, c ≠ '$') (hpost : ∀ c ∈ post, c ≠ '$')
    (h10 : 0 ≤ t1.Year) (h11 : t1.Year ≤ 9999) (h20 : 0 ≤ t2.Year) (h21 : t2.Year ≤ 9999) :
    expand (pre ++ stampPattern ++ post) t1 = pre ++ stamp t1 ++ post
      ∧ (stamp t1).length = 14
      ∧ (expand (pre ++ stampPattern ++ post) t1 = expand (pre ++ stampPattern ++ post) t2
          ↔ t1.Year = t2.Year ∧ t1.Month = t2.Month ∧ t1.Day = t2.Day
            ∧ t1.Hour = t2.Hour ∧ t1.Minute = t2.Minute ∧ t1.Second = t2.Second)
      ∧ (expand stampPattern t1 = expand stampPattern t2
          ↔ t1.Year = t2.Year ∧ t1.Month = t2.Month ∧ t1.Day = t2.Day
            ∧ t1.Hour = t2.Hour ∧ t1.Minute = t2.Minute ∧ t1.Second = t2.Second) := by
  have key : ∀ (a b : GoString), (∀ c ∈ a, c ≠ '$') → (∀ c ∈ b, c ≠ '$') →
      (expand (a ++ stampPattern ++ b) t1 = expand (a ++ stampPattern ++ b) t2
        ↔ t1.Year = t2.Year ∧ t1.Month = t2.Month ∧ t1.Day = t2.Day
          ∧ t1.Hour = t2.Hour ∧ t1.Minute = t2.Minute ∧ t1.Second = t2.Second) := by
    intro a b ha hb
    rw [expand_stamp a b t1 ha hb, expand_stamp a b t2 ha hb]
    constructor
    · intro h
      rw [List.append_assoc, List.append_assoc] at h
      have h' := List.append_cancel_left h
      exact stamp_inj t1 t2 h10 h11 h20 h21 (List.append_cancel_right h')
    · rintro ⟨e1, e2, e3, e4, e5, e6⟩
      unfold stamp
      rw [e1, e2, e3, e4, e5, e6]
  refine ⟨expand_stamp pre post t1 hpre hpost, ?_, key pre post hpre hpost, ?_⟩
  · have hM1 := Month_range t1
    have hD1 := Day_range t1
    have hh1 := Hour_range t1
    have hm1 := Minute_range t1
    have hs1 := Second_range t1
    unfold stamp
    simp only [List.length_append, sprintf0d_four_length _ h10 h11,
      sprintf0d_two_length t1.Month (by omega) (by omega),
      sprintf0d_two_length t1.Day (by omega) (by omega),
      sprintf0d_two_length t1.Hour (by omega) (by omega),
      sprintf0d_two_length t1.Minute (by omega) (by omega),
      sprintf0d_two_length t1.Second (by omega) (by omega)]
  · have := key [] [] (by simp) (by simp)
    simpa using this

/-- The two days of `TestRotate` with the six placeholders between `log-` and
`.txt`: the names are `log-20170203010000.txt` and `log-20170204010000.txt`, and
they differ, as the days do. -/
theorem stamped_names_injective_witness :
    expand ("log-".toList ++ stampPattern ++ ".txt".toList) testTime
        = "log-20170203010000.txt".toList
      ∧ expand ("log-".toList ++ stampPattern ++ ".txt".toList) (testTime.Add (24 * Hour))
        = "log-20170204010000.txt".toList
      ∧ expand ("log-".toList ++ stampPattern ++ ".txt".toList) testTime
        ≠ expand ("log-".toList ++ stampPattern ++ ".txt".toList) (testTime.Add (24 * Hour)) := by
  have h := stamped_names_injective "log-".toList ".txt".toList testTime
    (testTime.Add (24 * Hour)) (by decide) (by decide) (by decide) (by decide) (by decide)
    (by decide)
  refine ⟨h.1.trans (by decide), by decide, ?_⟩
  intro e
  have hd := (h.2.2.1.1 e).2.2.1
  revert hd
  decide

/-- Claim C20 as stated fails.  With a period of half a second the instants
2017-02-03 01:00:00.0 and 01:00:00.5 are the starts of two distinct periods,
both in the year 2017, and expand to the same path.  A writer with the six
placeholders, constructed at the first instant, rotates in a `Write` issued six
tenths of a second later: the new period starts at the second instant, and the
file opened, to which the byte is appended, is the file of the period before. -/
theorem half_second_periods_share_a_file :
    (testTime.Truncate halfSecond).ns ≠ ((testTime.Add 600000000).Truncate halfSecond).ns
      ∧ (testTime.Truncate halfSecond).Year = 2017
      ∧ ((testTime.Add 600000000).Truncate halfSecond).Year = 2017
      ∧ expand stampPattern (testTime.Truncate halfSecond)
        = expand stampPattern ((testTime.Add 600000000).Truncate halfSecond)
      ∧ expand stampedPattern (testTime.Truncate halfSecond)
        = expand stampedPattern ((testTime.Add 600000000).Truncate halfSecond)
      ∧ halfSecondWriter.w.thisFile = stampedFile
      ∧ halfSecondWriter.os.files stampedFile = some []
      ∧ (testTime.Add 600000000).After halfSecondWriter.w.nextRotate = true
      ∧ ∃ r, Write (okWrite (testTime.Add 600000000)) "x".toList
            halfSecondWriter.w halfSecondWriter.os = some r
          ∧ r.err = none
          ∧ rotations r.os.trace = rotations halfSecondWriter.os.trace + 1
          ∧ r.w.thisFile = stampedFile
          ∧ r.os.files stampedFile = some "x".toList := by
  refine ⟨by decide, by decide, by decide, by decide, by decide, by decide, by decide,
    by decide, ?_⟩
  have h := Write_rotate_ok (okWrite (testTime.Add 600000000)) "x".toList
    halfSecondWriter.w halfSecondWriter.os stampedFile (by decide) (by decide) (by decide)
    rfl rfl rfl
  have e : periodName halfSecondWriter.w (okWrite (testTime.Add 600000000)).rot.now
      = stampedFile := by decide
  have c : closeEvents halfSecondWriter.w stampedFile = [Event.close stampedFile none] := rfl
  rw [e, c] at h
  refine ⟨_, h, rfl, ?_, rfl, ?_⟩
  · simp [rotations]
  · simp only [setFile_same]
    decide

/-- Claim C9 as stated fails.  In the last part of `TestRotate` the writer is
constructed at 2017-02-04 01:00:00 on `2017-02-04.txt`, which holds the two
lines of the second day.  A `Write` one day later succeeds, but it rotates: the
line goes to `2017-02-05.txt` and the content of `2017-02-04.txt` is still the
two lines. -/
theorem reopen_then_write_next_day :
    secondDayWorld.files expectedFile2
        = some "Second Day, First Line\nSecond Day, Second Line\n".toList
      ∧ reopened.err = none
      ∧ reopened.w.thisFile = expectedFile2
      ∧ reopened.os.files expectedFile2
        = some "Second Day, First Line\nSecond Day, Second Line\n".toList
      ∧ ∃ r, Write (okWrite (testTime.Add (48 * Hour))) "Appended\n".toList
            reopened.w reopened.os = some r
          ∧ r.n = 9 ∧ r.err = none
          ∧ r.w.thisFile = expectedFile3
          ∧ r.os.files expectedFile3 = some "Appended\n".toList
          ∧ r.os.files expectedFile2
            = some "Second Day, First Line\nSecond Day, Second Line\n".toList
          ∧ r.os.files expectedFile2
            ≠ some "Second Day, First Line\nSecond Day, Second Line\nAppended\n".toList := by
  refine ⟨by decide, by decide, by decide, by decide, ?_⟩
  have h := Write_rotate_ok (okWrite (testTime.Add (48 * Hour))) "Appended\n".toList
    reopened.w reopened.os expectedFile2 (by decide) (by decide) (by decide) rfl rfl rfl
  have e : periodName reopened.w (okWrite (testTime.Add (48 * Hour))).rot.now
      = expectedFile3 := by decide
  rw [e] at h
  have hc : reopened.os.files expectedFile2
      = some "Second Day, First Line\nSecond Day, Second Line\n".toList := by decide
  have hn : reopened.os.files expectedFile3 = none := by decide
  have hne : expectedFile2 ≠ expectedFile3 := by decide
  refine ⟨_, h, rfl, rfl, rfl, ?_, ?_, ?_⟩
  · simp only [setFile_same, contentOf, hn, Option.getD]
    rfl
  · simp only [setFile_other _ _ _ _ hne]
    exact hc
  · simp only [setFile_other _ _ _ _ hne, hc]
    decide

end Rlog
